import Mathlib

/-!
Verification of the modular-flow-engine dataflow system.

This file gives a shallow embedding, in Lean 4, of the core of the
modular-flow-engine repository: the Python value model used by plans and
components, the hierarchical execution context with template resolution
(`core/context.py`), the dataflow engine's step interpreter
(`core/engine.py`), the persistent engine with its event log and
resume caches (`core/persistence.py`), the error protocol
(`core/errors.py`), and the call fingerprint (SHA-256 over a
sort-stable JSON serialization).  Theorems at the end settle the
specification's claims against these definitions.
-/

namespace MFE

/-- Model of the Python values flowing through the engine: `None`, booleans,
integers, strings, lists and string-keyed dicts (the JSON-shaped data the
plans and components exchange).  Floats are not modelled; no claim in
scope depends on them. -/
inductive PyVal where
  | none  : PyVal
  | bool  : Bool → PyVal
  | int   : Int → PyVal
  | str   : String → PyVal
  | list  : List PyVal → PyVal
  | dict  : List (String × PyVal) → PyVal
  deriving Inhabited

/-- Python's `value is None` test. -/
def PyVal.isNone : PyVal → Bool
  | PyVal.none => true
  | _ => false

mutual

/-- Decidable equality for modelled values (written by hand because the
deriving handler does not support this nested inductive). -/
def pvDecEq : (a b : PyVal) → Decidable (a = b)
  | PyVal.none, PyVal.none => isTrue rfl
  | PyVal.none, PyVal.bool _ => isFalse (fun h => PyVal.noConfusion h)
  | PyVal.none, PyVal.int _ => isFalse (fun h => PyVal.noConfusion h)
  | PyVal.none, PyVal.str _ => isFalse (fun h => PyVal.noConfusion h)
  | PyVal.none, PyVal.list _ => isFalse (fun h => PyVal.noConfusion h)
  | PyVal.none, PyVal.dict _ => isFalse (fun h => PyVal.noConfusion h)
  | PyVal.bool _, PyVal.none => isFalse (fun h => PyVal.noConfusion h)
  | PyVal.bool a, PyVal.bool b =>
      match decEq a b with
      | isTrue h => isTrue (h ▸ rfl)
      | isFalse h => isFalse (fun he => h (PyVal.bool.inj he))
  | PyVal.bool _, PyVal.int _ => isFalse (fun h => PyVal.noConfusion h)
  | PyVal.bool _, PyVal.str _ => isFalse (fun h => PyVal.noConfusion h)
  | PyVal.bool _, PyVal.list _ => isFalse (fun h => PyVal.noConfusion h)
  | PyVal.bool _, PyVal.dict _ => isFalse (fun h => PyVal.noConfusion h)
  | PyVal.int _, PyVal.none => isFalse (fun h => PyVal.noConfusion h)
  | PyVal.int _, PyVal.bool _ => isFalse (fun h => PyVal.noConfusion h)
  | PyVal.int a, PyVal.int b =>
      match decEq a b with
      | isTrue h => isTrue (h ▸ rfl)
      | isFalse h => isFalse (fun he => h (PyVal.int.inj he))
  | PyVal.int _, PyVal.str _ => isFalse (fun h => PyVal.noConfusion h)
  | PyVal.int _, PyVal.list _ => isFalse (fun h => PyVal.noConfusion h)
  | PyVal.int _, PyVal.dict _ => isFalse (fun h => PyVal.noConfusion h)
  | PyVal.str _, PyVal.none => isFalse (fun h => PyVal.noConfusion h)
  | PyVal.str _, PyVal.bool _ => isFalse (fun h => PyVal.noConfusion h)
  | PyVal.str _, PyVal.int _ => isFalse (fun h => PyVal.noConfusion h)
  | PyVal.str a, PyVal.str b =>
      match decEq a b with
      | isTrue h => isTrue (h ▸ rfl)
      | isFalse h => isFalse (fun he => h (PyVal.str.inj he))
  | PyVal.str _, PyVal.list _ => isFalse (fun h => PyVal.noConfusion h)
  | PyVal.str _, PyVal.dict _ => isFalse (fun h => PyVal.noConfusion h)
  | PyVal.list _, PyVal.none => isFalse (fun h => PyVal.noConfusion h)
  | PyVal.list _, PyVal.bool _ => isFalse (fun h => PyVal.noConfusion h)
  | PyVal.list _, PyVal.int _ => isFalse (fun h => PyVal.noConfusion h)
  | PyVal.list _, PyVal.str _ => isFalse (fun h => PyVal.noConfusion h)
  | PyVal.list a, PyVal.list b =>
      match pvDecEqList a b with
      | isTrue h => isTrue (h ▸ rfl)
      | isFalse h => isFalse (fun he => h (PyVal.list.inj he))
  | PyVal.list _, PyVal.dict _ => isFalse (fun h => PyVal.noConfusion h)
  | PyVal.dict _, PyVal.none => isFalse (fun h => PyVal.noConfusion h)
  | PyVal.dict _, PyVal.bool _ => isFalse (fun h => PyVal.noConfusion h)
  | PyVal.dict _, PyVal.int _ => isFalse (fun h => PyVal.noConfusion h)
  | PyVal.dict _, PyVal.str _ => isFalse (fun h => PyVal.noConfusion h)
  | PyVal.dict _, PyVal.list _ => isFalse (fun h => PyVal.noConfusion h)
  | PyVal.dict a, PyVal.dict b =>
      match pvDecEqDict a b with
      | isTrue h => isTrue (h ▸ rfl)
      | isFalse h => isFalse (fun he => h (PyVal.dict.inj he))
  termination_by structural a b => a

def pvDecEqList : (a b : List PyVal) → Decidable (a = b)
  | [], [] => isTrue rfl
  | [], _ :: _ => isFalse (fun h => List.noConfusion h)
  | _ :: _, [] => isFalse (fun h => List.noConfusion h)
  | x :: xs, y :: ys =>
      match pvDecEq x y with
      | isTrue h1 =>
          (match pvDecEqList xs ys with
          | isTrue h2 => isTrue (h1 ▸ h2 ▸ rfl)
          | isFalse h2 => isFalse (fun he => h2 (List.cons.inj he).2))
      | isFalse h1 => isFalse (fun he => h1 (List.cons.inj he).1)
  termination_by structural a b => a

def pvDecEqDict : (a b : List (String × PyVal)) → Decidable (a = b)
  | [], [] => isTrue rfl
  | [], _ :: _ => isFalse (fun h => List.noConfusion h)
  | _ :: _, [] => isFalse (fun h => List.noConfusion h)
  | (k1, v1) :: xs, (k2, v2) :: ys =>
      match decEq k1 k2 with
      | isTrue hk =>
          (match pvDecEq v1 v2 with
          | isTrue h1 =>
              (match pvDecEqDict xs ys with
              | isTrue h2 => isTrue (hk ▸ h1 ▸ h2 ▸ rfl)
              | isFalse h2 => isFalse (fun he => h2 (List.cons.inj he).2))
          | isFalse h1 =>
              isFalse (fun he => h1 (congrArg Prod.snd (List.cons.inj he).1)))
      | isFalse hk => isFalse (fun he => hk (congrArg Prod.fst (List.cons.inj he).1))
  termination_by structural a b => a

end

instance : DecidableEq PyVal := pvDecEq

/-- A Python dict of values is modelled as an association list with the
dict's insertion order; `dictGet` is Python's `dict.get(key, default)`
(first matching key). -/
def dictGet (l : List (String × PyVal)) (k : String) (default : PyVal) : PyVal :=
  match l.lookup k with
  | Option.some v => v
  | Option.none => default

/-- Python dict assignment `d[k] = v`: replace the first binding of `k`
in place, or append a new binding. -/
def dictSet (k : String) (v : PyVal) : List (String × PyVal) → List (String × PyVal)
  | [] => [(k, v)]
  | (k0, v0) :: rest => if k0 = k then (k, v) :: rest else (k0, v0) :: dictSet k v rest

/-- Python `dict.update(other)`: apply each binding of `other` in order. -/
def dictUpdate (d other : List (String × PyVal)) : List (String × PyVal) :=
  other.foldl (fun acc kv => dictSet kv.1 kv.2 acc) d

/-- Python `repr` of a string: quote with a single quote (double quote when
the string contains a single quote but no double quote) and escape the
backslash, the quote character, newline, carriage return and tab.  Other
control characters are left unescaped in this model; the claims only
exercise printable data. -/
def pyreprStrChar (q : Char) (c : Char) : String :=
  if c = '\\' then "\\\\"
  else if c = q then "\\" ++ String.mk [q]
  else if c = '\n' then "\\n"
  else if c = '\r' then "\\r"
  else if c = '\t' then "\\t"
  else String.mk [c]

/-- Python `repr` for strings (see `pyreprStrChar` for the escape rules). -/
def pyreprStr (s : String) : String :=
  let q : Char := if s.data.contains '\'' ∧ ¬ s.data.contains '"' then '"' else '\'';
  String.mk [q] ++ String.join (s.data.map (pyreprStrChar q)) ++ String.mk [q]

mutual

/-- Python `repr()` on modelled values.  `repr` of containers uses `repr`
of the elements, which is why `pyrepr` and `pystr` are mutually defined. -/
def pyrepr : PyVal → String
  | PyVal.none => "None"
  | PyVal.bool b => if b then "True" else "False"
  | PyVal.int n => toString n
  | PyVal.str s => pyreprStr s
  | PyVal.list l => "[" ++ String.intercalate ", " (pyreprList l) ++ "]"
  | PyVal.dict d => "\x7b" ++ String.intercalate ", " (pyreprDict d) ++ "\x7d"
  termination_by structural v => v

def pyreprList : List PyVal → List String
  | [] => []
  | v :: rest => pyrepr v :: pyreprList rest
  termination_by structural l => l

def pyreprDict : List (String × PyVal) → List String
  | [] => []
  | (k, v) :: rest => (pyreprStr k ++ ": " ++ pyrepr v) :: pyreprDict rest
  termination_by structural l => l

end

/-- Python `str()` on modelled values: identity on strings, `repr`-based
rendering for containers, `True`/`False`/`None` for the singletons. -/
def pystr : PyVal → String
  | PyVal.str s => s
  | v => pyrepr v

/-- Python `str.lower()` (ASCII case mapping; the engine only compares
against ASCII literals). -/
def pyLower (s : String) : String :=
  String.mk (s.data.map Char.toLower)

/-- Python `bool()` truthiness on modelled values. -/
def pyBool : PyVal → Bool
  | PyVal.none => false
  | PyVal.bool b => b
  | PyVal.int n => n != 0
  | PyVal.str s => s != ""
  | PyVal.list l => !l.isEmpty
  | PyVal.dict d => !d.isEmpty

/-- `DataflowEngine._is_truthy` (engine.py): strings are falsy exactly when
their lowercase form is `"false"`, `"no"`, `"0"` or empty; every other
value uses Python truthiness. -/
def isTruthy (v : PyVal) : Bool :=
  match v with
  | PyVal.str s =>
      !(pyLower s == "false" || pyLower s == "no" || pyLower s == "0" || pyLower s == "")
  | v => pyBool v

/-- Outcome of running a piece of modelled Python code: a value, a raised
exception (type name and message), or divergence (`hang`, reachable in
`_get_with_indexing`'s parse loop on malformed bracket syntax). -/
inductive PRes (α : Type) where
  | ok : α → PRes α
  | exn : String → String → PRes α
  | hang : PRes α

/-- Sequencing of modelled Python computations: exceptions and divergence
propagate. -/
def PRes.bind {α β : Type} : PRes α → (α → PRes β) → PRes β
  | PRes.ok a, f => f a
  | PRes.exn t m, _ => PRes.exn t m
  | PRes.hang, _ => PRes.hang

/-- The index of the first occurrence of `c`, Python's `str.find` (with
`Option.none` for Python's `-1`). -/
def findPos (c : Char) : List Char → Option Nat
  | [] => Option.none
  | x :: rest => if x = c then Option.some 0 else (findPos c rest).map (· + 1)

/-- Python's `name.split(".", 1)`: split at the first `.`, when present. -/
def splitOnce (c : Char) : List Char → Option (List Char × List Char)
  | [] => Option.none
  | x :: rest =>
      if x = c then Option.some ([], rest)
      else
        match splitOnce c rest with
        | Option.some (a, b) => Option.some (x :: a, b)
        | Option.none => Option.none

/-- One path segment of a context reference: a field name or a numeric
index. -/
inductive Seg where
  | name : String → Seg
  | idx : Nat → Seg

/-- The decimal value of a digit string, Python's `int()` on the digits
captured by `\[(\d+)\]`. -/
def digitsToNat (ds : List Char) : Nat :=
  ds.foldl (fun acc c => acc * 10 + (c.toNat - 48)) 0

/-- Attempt to match the regex `\[(\d+)\](.*)` at the start of the input:
an opening bracket, one or more digits, a closing bracket; returns the
index value and the remainder. -/
def brMatch : List Char → Option (Nat × List Char)
  | [] => Option.none
  | c :: rest =>
      if c = '[' then
        let ds := rest.takeWhile Char.isDigit
        if ds.isEmpty then Option.none
        else
          match rest.dropWhile Char.isDigit with
          | c2 :: tail =>
              if c2 = ']' then Option.some (digitsToNat ds, tail) else Option.none
          | [] => Option.none
      else Option.none

/-- Drop one leading `.` (the parse loop strips a dot after a bracket
segment). -/
def stripDot (cs : List Char) : List Char :=
  match cs with
  | c :: rest => if c = '.' then rest else cs
  | [] => cs

/-- The segment-parsing loop of `ExecutionContext._get_with_indexing`
(context.py), with an explicit recursion budget so the definition is
structurally recursive.  Each recursive step of the Python loop consumes
at least one character, so the caller's budget `cs.length + 1` makes the
fuel-exhaustion branch unreachable.  Returns `Option.none` when the
Python loop makes no progress and spins forever, which happens exactly
when the remaining input starts with `[` but does not match `\[(\d+)\]`. -/
def parseSegsF (fuel : Nat) (cs : List Char) : Option (List Seg) :=
  match fuel with
  | 0 => Option.none
  | fuel + 1 =>
    match cs with
    | [] => Option.some []
    | c :: _ =>
      match brMatch cs with
      | Option.some (n, tail) =>
          (parseSegsF fuel (stripDot tail)).map (fun segs => Seg.idx n :: segs)
      | Option.none =>
        if c = '[' then Option.none
        else
          match findPos '.' cs, findPos '[' cs with
          | Option.none, Option.none => Option.some [Seg.name (String.mk cs)]
          | Option.none, Option.some bp =>
              (parseSegsF fuel (cs.drop bp)).map
                (fun segs => Seg.name (String.mk (cs.take bp)) :: segs)
          | Option.some dp, Option.none =>
              (parseSegsF fuel (cs.drop (dp + 1))).map
                (fun segs => Seg.name (String.mk (cs.take dp)) :: segs)
          | Option.some dp, Option.some bp =>
              if dp < bp then
                (parseSegsF fuel (cs.drop (dp + 1))).map
                  (fun segs => Seg.name (String.mk (cs.take dp)) :: segs)
              else
                (parseSegsF fuel (cs.drop bp)).map
                  (fun segs => Seg.name (String.mk (cs.take bp)) :: segs)

/-- Segment parsing with its sufficient budget. -/
def parseSegs (cs : List Char) : Option (List Seg) :=
  parseSegsF (cs.length + 1) cs

/-- One scope of the hierarchical execution context: its own variables and
its own per-component output cache (`_component_outputs`; non-empty only
at the root scope, since the engine always writes component outputs
through the root context). -/
structure ScopeData where
  vars : List (String × PyVal)
  comps : List (String × List (String × PyVal))

/-- The navigation loop of `ExecutionContext._get_with_indexing`: walk the
remaining segments, indexing lists and looking up dict fields; any miss
yields the default (`None`).  Attribute access on non-dict values
(`getattr(base, field, default)`) yields the default, since the modelled
values carry no Python attributes. -/
def navSegs : PyVal → List Seg → PyVal
  | v, [] => v
  | v, seg :: rest =>
    if v.isNone then PyVal.none
    else
      match seg with
      | Seg.idx i =>
        match v with
        | PyVal.list l =>
            if h : i < l.length then navSegs (l.get ⟨i, h⟩) rest else PyVal.none
        | _ => PyVal.none
      | Seg.name f =>
        match v with
        | PyVal.dict d =>
            let v2 := dictGet d f PyVal.none
            if v2.isNone then PyVal.none else navSegs v2 rest
        | _ => PyVal.none

/-- `ExecutionContext.get` (context.py), on the chain of scopes from the
innermost to the root, with an explicit recursion budget so the
definition is structurally recursive.  Every recursive call of the
source decreases `chain.length + name.length` (the recursion either
moves to the parent scope with the same name, or keeps the scope and
looks up a strict prefix of the name), so the caller's budget
`chain.length + name.length + 1` makes the fuel-exhaustion branch
(conservatively `hang`) unreachable.

Every call site in the modelled engine passes the default `None`, so
the embedding fixes `default = None` (Python's `value is default`
identity test then coincides with an `is None` test).  Dispatch order
follows the source: bracket paths go to `_get_with_indexing`, dotted
names to the component-output branch, and plain names to variables →
component outputs → parent.  The one-shot unfinalized-sink warning to
the console is not modelled (a pure print). -/
def ctxGetF (fuel : Nat) (chain : List ScopeData) (name : String) : PRes PyVal :=
  match fuel with
  | 0 => PRes.hang
  | fuel + 1 =>
    match chain with
    | [] => PRes.ok PyVal.none
    | s :: parent =>
      if (findPos '[' name.data).isSome then
        match parseSegs name.data with
        | Option.none => PRes.hang
        | Option.some [] => PRes.ok PyVal.none
        | Option.some (Seg.idx _ :: _) =>
            PRes.exn "TypeError" "argument of type int is not iterable"
        | Option.some (Seg.name n0 :: segs) =>
            (ctxGetF fuel (s :: parent) n0).bind (fun v =>
              if v.isNone then PRes.ok PyVal.none
              else PRes.ok (navSegs v segs))
      else
        match splitOnce '.' name.data with
        | Option.some (hd, tl) =>
            (ctxGetF fuel (s :: parent) (String.mk hd)).bind (fun base =>
              if base.isNone then
                match s.comps.lookup (String.mk hd) with
                | Option.some outs => PRes.ok (dictGet outs (String.mk tl) PyVal.none)
                | Option.none => ctxGetF fuel parent name
              else
                match base with
                | PyVal.dict d => PRes.ok (dictGet d (String.mk tl) PyVal.none)
                | _ => PRes.ok PyVal.none)
        | Option.none =>
            match s.vars.lookup name with
            | Option.some v => PRes.ok v
            | Option.none =>
              match s.comps.lookup name with
              | Option.some outs => PRes.ok (PyVal.dict outs)
              | Option.none => ctxGetF fuel parent name

/-- `ExecutionContext.get` with its sufficient budget. -/
def ctxGet (chain : List ScopeData) (name : String) : PRes PyVal :=
  ctxGetF (chain.length + name.length + 1) chain name

/-- Split the input at the first closing brace: `findClose cs = some (body,
tail)` when `cs = body ++ close :: tail` with no closing brace in `body`. -/
def findClose : List Char → Option (List Char × List Char)
  | [] => Option.none
  | c :: rest =>
      if c = '}' then Option.some ([], rest)
      else
        match findClose rest with
        | Option.some (body, tail) => Option.some (c :: body, tail)
        | Option.none => Option.none

/-- Python's `re.fullmatch` of the placeholder pattern (an opening brace,
at least one non-closing-brace character, then a closing brace) against
the whole template: the entire string is a single placeholder, whose
captured group is returned. -/
def fullPlaceholder (s : String) : Option String :=
  match s.data with
  | '{' :: rest =>
      match findClose rest with
      | Option.some (body, []) =>
          if body.isEmpty then Option.none else Option.some (String.mk body)
      | _ => Option.none
  | _ => Option.none

/-- The interpolation pass of `ExecutionContext._resolve_string`: `re.sub`
of the placeholder pattern with the source's `replace` callback — each
matched reference is looked up with `g`; a value that is not `None` is
substituted via `str()`, a `None` leaves the match in place.  Exceptions
and divergence from `g` propagate.  The budget decreases with the
remaining input (each step consumes at least one character), so the
caller's `cs.length + 1` makes fuel exhaustion unreachable. -/
def interpAuxF (g : String → PRes PyVal) (fuel : Nat) (cs : List Char) : PRes String :=
  match fuel with
  | 0 => PRes.hang
  | fuel + 1 =>
    match cs with
    | [] => PRes.ok ""
    | c :: rest =>
      if c = '{' then
        match findClose rest with
        | Option.some (body, tail) =>
            if body.isEmpty then
              (interpAuxF g fuel rest).bind (fun r => PRes.ok ("\x7b" ++ r))
            else
              (g (String.mk body)).bind (fun v =>
                let rep :=
                  if v.isNone then "\x7b" ++ String.mk body ++ "\x7d" else pystr v
                (interpAuxF g fuel tail).bind (fun r => PRes.ok (rep ++ r)))
        | Option.none =>
            (interpAuxF g fuel rest).bind (fun r => PRes.ok ("\x7b" ++ r))
      else
        (interpAuxF g fuel rest).bind (fun r => PRes.ok (String.mk [c] ++ r))

/-- `ExecutionContext._resolve_string` (context.py), parametric in the
lookup function `g` (the context's `get`): a full-string single
placeholder returns the raw looked-up value when it is not `None` and the
template itself otherwise; any other string goes through interpolation. -/
def resolveString (g : String → PRes PyVal) (template : String) : PRes PyVal :=
  match fullPlaceholder template with
  | Option.some body =>
      (g body).bind (fun v =>
        if v.isNone then PRes.ok (PyVal.str template) else PRes.ok v)
  | Option.none =>
      (interpAuxF g (template.data.length + 1) template.data).bind
        (fun r => PRes.ok (PyVal.str r))

mutual

/-- `ExecutionContext.resolve` (context.py): strings go through
`_resolve_string`, lists and dict values are resolved recursively, and
every other value passes through verbatim. -/
def ctxResolve (chain : List ScopeData) : PyVal → PRes PyVal
  | PyVal.str s => resolveString (fun n => ctxGet chain n) s
  | PyVal.list l => (ctxResolveList chain l).bind (fun l2 => PRes.ok (PyVal.list l2))
  | PyVal.dict d => (ctxResolveDict chain d).bind (fun d2 => PRes.ok (PyVal.dict d2))
  | v => PRes.ok v

def ctxResolveList (chain : List ScopeData) : List PyVal → PRes (List PyVal)
  | [] => PRes.ok []
  | v :: rest =>
      (ctxResolve chain v).bind (fun v2 =>
        (ctxResolveList chain rest).bind (fun r2 => PRes.ok (v2 :: r2)))

def ctxResolveDict (chain : List ScopeData) :
    List (String × PyVal) → PRes (List (String × PyVal))
  | [] => PRes.ok []
  | (k, v) :: rest =>
      (ctxResolve chain v).bind (fun v2 =>
        (ctxResolveDict chain rest).bind (fun r2 => PRes.ok ((k, v2) :: r2)))

end

/-- `ExecutionContext.resolve_inputs` (context.py): resolve each value of
an inputs-spec dict. -/
def resolveInputs (chain : List ScopeData) (spec : List (String × PyVal)) :
    PRes (List (String × PyVal)) :=
  ctxResolveDict chain spec

/-- Code-point comparison of strings, Python's `<=` on `str`, used by
`sorted()` for `json.dumps(sort_keys=True)`. -/
def charListLe : List Char → List Char → Bool
  | [], _ => true
  | _ :: _, [] => false
  | a :: as_, b :: bs =>
      if a.toNat < b.toNat then true
      else if b.toNat < a.toNat then false
      else charListLe as_ bs

/-- Stable insertion by key: the new pair goes after every pair whose key
compares less-or-equal, matching Python's stable `sorted`. -/
def insertByKey (kv : String × String) : List (String × String) → List (String × String)
  | [] => [kv]
  | hd :: rest =>
      if charListLe hd.1.data kv.1.data then hd :: insertByKey kv rest
      else kv :: hd :: rest

/-- Stable sort of rendered dict entries by key (Python's
`sorted(items)`). -/
def sortPairsByKey (l : List (String × String)) : List (String × String) :=
  l.foldl (fun acc kv => insertByKey kv acc) []

/-- One lowercase hexadecimal digit. -/
def hexDigit (n : Nat) : Char :=
  if n < 10 then Char.ofNat (48 + n) else Char.ofNat (87 + n)

/-- Four lowercase hexadecimal digits (used by `\uXXXX` escapes and the
hex digest). -/
def toHex4 (n : Nat) : String :=
  String.mk [hexDigit (n / 4096 % 16), hexDigit (n / 256 % 16),
             hexDigit (n / 16 % 16), hexDigit (n % 16)]

/-- JSON escaping of one character as `json.dumps` does with its default
`ensure_ascii=True`: quote, backslash and the short escapes, `\uXXXX`
(with surrogate pairs beyond the basic plane) for every character outside
the printable ASCII range `\x20`–`\x7e`. -/
def jsonEscapeChar (c : Char) : String :=
  if c = '"' then "\\\""
  else if c = '\\' then "\\\\"
  else if c = '\n' then "\\n"
  else if c = '\r' then "\\r"
  else if c = '\t' then "\\t"
  else if c.toNat = 8 then "\\b"
  else if c.toNat = 12 then "\\f"
  else if c.toNat < 32 ∨ 126 < c.toNat then
    if c.toNat < 65536 then "\\u" ++ toHex4 c.toNat
    else
      "\\u" ++ toHex4 (55296 + (c.toNat - 65536) / 1024) ++
      "\\u" ++ toHex4 (56320 + (c.toNat - 65536) % 1024)
  else String.mk [c]

/-- A JSON string literal for `s`. -/
def jsonQuote (s : String) : String :=
  "\"" ++ String.join (s.data.map jsonEscapeChar) ++ "\""

mutual

/-- `json.dumps(value, sort_keys=True, default=str)` as used by
`PersistentEngine._compute_call_hash` (persistence.py): default
separators (`", "` and `": "`), dict entries sorted by key at every
nesting level, `ensure_ascii` escaping.  All modelled values are
JSON-serializable, so the `default=str` fallback is never consulted. -/
def jsonDumps : PyVal → String
  | PyVal.none => "null"
  | PyVal.bool b => if b then "true" else "false"
  | PyVal.int n => toString n
  | PyVal.str s => jsonQuote s
  | PyVal.list l => "[" ++ String.intercalate ", " (jsonDumpsList l) ++ "]"
  | PyVal.dict d =>
      "\x7b" ++
        String.intercalate ", "
          ((sortPairsByKey (jsonDumpsPairs d)).map
            (fun kv => jsonQuote kv.1 ++ ": " ++ kv.2)) ++
      "\x7d"
  termination_by structural v => v

def jsonDumpsList : List PyVal → List String
  | [] => []
  | v :: rest => jsonDumps v :: jsonDumpsList rest
  termination_by structural l => l

def jsonDumpsPairs : List (String × PyVal) → List (String × String)
  | [] => []
  | (k, v) :: rest => (k, jsonDumps v) :: jsonDumpsPairs rest
  termination_by structural l => l

end

/-- Truncate to a 32-bit word. -/
def w32 (n : Nat) : Nat := n % 4294967296

/-- 32-bit right rotation. -/
def rotr (k n : Nat) : Nat := w32 ((n >>> k) ||| (n <<< (32 - k)))

/-- SHA-256 message-schedule sigma functions (FIPS 180-4). -/
def ssig0 (x : Nat) : Nat := rotr 7 x ^^^ rotr 18 x ^^^ (x >>> 3)

def ssig1 (x : Nat) : Nat := rotr 17 x ^^^ rotr 19 x ^^^ (x >>> 10)

def bsig0 (x : Nat) : Nat := rotr 2 x ^^^ rotr 13 x ^^^ rotr 22 x

def bsig1 (x : Nat) : Nat := rotr 6 x ^^^ rotr 11 x ^^^ rotr 25 x

/-- The SHA-256 round constants (FIPS 180-4). -/
def shaK : List Nat :=
  [1116352408, 1899447441, 3049323471, 3921009573, 961987163, 1508970993,
   2453635748, 2870763221, 3624381080, 310598401, 607225278, 1426881987,
   1925078388, 2162078206, 2614888103, 3248222580, 3835390401, 4022224774,
   264347078, 604807628, 770255983, 1249150122, 1555081692, 1996064986,
   2554220882, 2821834349, 2952996808, 3210313671, 3336571891, 3584528711,
   113926993, 338241895, 666307205, 773529912, 1294757372, 1396182291,
   1695183700, 1986661051, 2177026350, 2456956037, 2730485921, 2820302411,
   3259730800, 3345764771, 3516065817, 3600352804, 4094571909, 275423344,
   430227734, 506948616, 659060556, 883997877, 958139571, 1322822218,
   1537002063, 1747873779, 1955562222, 2024104815, 2227730452, 2361852424,
   2428436474, 2756734187, 3204031479, 3329325298]

/-- The SHA-256 initial hash value (FIPS 180-4). -/
def shaH0 : List Nat :=
  [1779033703, 3144134277, 1013904242, 2773480762,
   1359893119, 2600822924, 528734635, 1541459225]

/-- Big-endian 32-bit words from bytes. -/
def bytesToWords : List Nat → List Nat
  | b0 :: b1 :: b2 :: b3 :: rest =>
      (b0 * 16777216 + b1 * 65536 + b2 * 256 + b3) :: bytesToWords rest
  | _ => []

/-- Extend the 16-word message schedule by `rounds` further words. -/
def extendW (w : List Nat) : Nat → List Nat
  | 0 => w
  | rounds + 1 =>
      let n := w.length
      let wi := w32 (ssig1 (w.getD (n - 2) 0) + w.getD (n - 7) 0 +
                     ssig0 (w.getD (n - 15) 0) + w.getD (n - 16) 0)
      extendW (w ++ [wi]) rounds

/-- The 64 SHA-256 compression rounds over the working variables
`[a, b, c, d, e, f, g, h]`. -/
def shaRounds : List (Nat × Nat) → List Nat → List Nat
  | [], st => st
  | (k, wt) :: rest, st =>
    match st with
    | [a, b, c, d, e, f, g, h] =>
        let ch := (e &&& f) ^^^ ((e ^^^ 4294967295) &&& g)
        let maj := (a &&& b) ^^^ (a &&& c) ^^^ (b &&& c)
        let t1 := w32 (h + bsig1 e + ch + k + wt)
        let t2 := w32 (bsig0 a + maj)
        shaRounds rest [w32 (t1 + t2), a, b, c, w32 (d + t1), e, f, g]
    | st => st

/-- One SHA-256 block compression. -/
def shaCompress (h : List Nat) (block : List Nat) : List Nat :=
  let w := extendW (bytesToWords block) 48
  let st := shaRounds (shaK.zip w) h
  (h.zip st).map (fun p => w32 (p.1 + p.2))

/-- Process the padded message block by block; the budget
`bytes.length / 64 + 1` always suffices. -/
def shaBlocksF (fuel : Nat) (h : List Nat) (bytes : List Nat) : List Nat :=
  match fuel with
  | 0 => h
  | fuel + 1 =>
      match bytes with
      | [] => h
      | _ => shaBlocksF fuel (shaCompress h (bytes.take 64)) (bytes.drop 64)

/-- The big-endian length field of SHA-256 padding (bit length, 8 bytes). -/
def lenBytes8 (n : Nat) : List Nat :=
  [n / 72057594037927936 % 256, n / 281474976710656 % 256,
   n / 1099511627776 % 256, n / 4294967296 % 256,
   n / 16777216 % 256, n / 65536 % 256, n / 256 % 256, n % 256]

/-- SHA-256 padding: a `0x80` byte, zeros to 56 mod 64, then the bit
length. -/
def shaPad (msg : List Nat) : List Nat :=
  let padZeros := (119 - msg.length % 64) % 64
  msg ++ [128] ++ List.replicate padZeros 0 ++ lenBytes8 (msg.length * 8)

/-- SHA-256 of a byte sequence: the eight 32-bit words of the digest. -/
def sha256Words (msg : List Nat) : List Nat :=
  let padded := shaPad msg
  shaBlocksF (padded.length / 64 + 1) shaH0 padded

/-- Render one 32-bit word as eight lowercase hex digits. -/
def wordToHex8 (n : Nat) : String := toHex4 (n / 65536) ++ toHex4 (n % 65536)

/-- The lowercase hexadecimal SHA-256 digest of a byte sequence,
`hashlib.sha256(b).hexdigest()`. -/
def sha256Hex (msg : List Nat) : String :=
  String.join ((sha256Words msg).map wordToHex8)

/-- UTF-8 encoding of one character. -/
def utf8Char (c : Char) : List Nat :=
  let n := c.toNat
  if n < 128 then [n]
  else if n < 2048 then [192 + n / 64, 128 + n % 64]
  else if n < 65536 then [224 + n / 4096, 128 + n / 64 % 64, 128 + n % 64]
  else [240 + n / 262144, 128 + n / 4096 % 64, 128 + n / 64 % 64, 128 + n % 64]

/-- Python's `str.encode()`: UTF-8 bytes of a string. -/
def utf8Bytes (s : String) : List Nat :=
  (s.data.map utf8Char).join

/-- `PersistentEngine._compute_call_hash` (persistence.py): the first 16
hex characters of the SHA-256 digest of
`component_id + ":" + json.dumps(inputs, sort_keys=True, default=str)`. -/
def computeCallHash (compId : String) (inputs : List (String × PyVal)) : String :=
  let key := compId ++ ":" ++ jsonDumps (PyVal.dict inputs)
  String.mk ((sha256Hex (utf8Bytes key)).data.take 16)

/-- Specification of a plan-level input (`PlanInputSpec`, engine.py).
Field values are kept as modelled Python values, as the source stores
whatever the plan JSON provides. -/
structure PlanInputSpec where
  type : PyVal
  required : PyVal
  default : PyVal
  description : PyVal

/-- `DataflowEngine.get_input_schema` (engine.py): a dict entry yields a
spec from its fields (`type` defaulting to `"string"`, `required` to
`True`); a bare value is the string-type shorthand. -/
def getInputSchema (planInputs : List (String × PyVal)) : List (String × PlanInputSpec) :=
  planInputs.map (fun kv =>
    match kv.2 with
    | PyVal.dict spec =>
        (kv.1, PlanInputSpec.mk (dictGet spec "type" (PyVal.str "string"))
          (dictGet spec "required" (PyVal.bool true))
          (dictGet spec "default" PyVal.none)
          (dictGet spec "description" (PyVal.str "")))
    | v => (kv.1, PlanInputSpec.mk v (PyVal.bool true) PyVal.none (PyVal.str "")))

/-- The literal prefix of the plan-input reference pattern. -/
def inputsRefHead : List Char := ['{', '$', 'i', 'n', 'p', 'u', 't', 's', '.']

/-- Attempt to match `\{\$inputs\.([^\x7d]+)\}` at the start of the input:
the literal prefix, a non-empty closing-brace-free group, and the closing
brace; returns the group and the remainder. -/
def matchInputsRef (cs : List Char) : Option (String × List Char) :=
  if cs.take 9 = inputsRefHead then
    match findClose (cs.drop 9) with
    | Option.some (body, tail) =>
        if body.isEmpty then Option.none else Option.some (String.mk body, tail)
    | Option.none => Option.none
  else Option.none

/-- The `re.sub` pass of `DataflowEngine._resolve_input_references` for
partial replacement, parametric in the replacement callback: `repl x =
some r` substitutes `r`, `Option.none` leaves the match as it was
(`m.group(0)`).  The budget `cs.length + 1` always suffices (every step
consumes at least one character). -/
def subInputsF (repl : String → Option String) : Nat → List Char → List Char
  | 0, _ => []
  | _, [] => []
  | fuel + 1, c :: rest =>
      match matchInputsRef (c :: rest) with
      | Option.some (x, tail) =>
          let rep :=
            match repl x with
            | Option.some r => r.data
            | Option.none => inputsRefHead ++ x.data ++ ['}']
          rep ++ subInputsF repl fuel tail
      | Option.none => c :: subInputsF repl fuel rest

/-- The replacement callback of `_resolve_input_references`: a
user-supplied input wins, else a declared non-`None` default, else the
reference is left unresolved. -/
def inputsRepl (userInputs : List (String × PyVal))
    (schema : List (String × PlanInputSpec)) (x : String) : Option String :=
  match userInputs.lookup x with
  | Option.some v => Option.some (pystr v)
  | Option.none =>
      match schema.lookup x with
      | Option.some spec =>
          if spec.default.isNone then Option.none else Option.some (pystr spec.default)
      | Option.none => Option.none

mutual

/-- `DataflowEngine._resolve_input_references` (engine.py): a string that
is exactly one `\{$inputs.X\}` reference resolves to the raw user value
(else the declared non-`None` default, else the string itself); any
other string goes through partial substitution with stringified values;
dicts and lists are resolved recursively; all else passes through. -/
def resolveInputRefs (userInputs : List (String × PyVal))
    (planInputs : List (String × PyVal)) : PyVal → PyVal
  | PyVal.str s =>
      match matchInputsRef s.data with
      | Option.some (x, []) =>
          (match userInputs.lookup x with
          | Option.some v => v
          | Option.none =>
              match (getInputSchema planInputs).lookup x with
              | Option.some spec =>
                  if spec.default.isNone then PyVal.str s else spec.default
              | Option.none => PyVal.str s)
      | _ =>
          PyVal.str (String.mk
            (subInputsF (inputsRepl userInputs (getInputSchema planInputs))
              (s.data.length + 1) s.data))
  | PyVal.dict d => PyVal.dict (resolveInputRefsPairs userInputs planInputs d)
  | PyVal.list l => PyVal.list (resolveInputRefsList userInputs planInputs l)
  | v => v
  termination_by structural v => v

def resolveInputRefsPairs (userInputs : List (String × PyVal))
    (planInputs : List (String × PyVal)) :
    List (String × PyVal) → List (String × PyVal)
  | [] => []
  | (k, v) :: rest =>
      (k, resolveInputRefs userInputs planInputs v) ::
        resolveInputRefsPairs userInputs planInputs rest
  termination_by structural l => l

def resolveInputRefsList (userInputs : List (String × PyVal))
    (planInputs : List (String × PyVal)) : List PyVal → List PyVal
  | [] => []
  | v :: rest =>
      resolveInputRefs userInputs planInputs v ::
        resolveInputRefsList userInputs planInputs rest
  termination_by structural l => l

end

/-- `ErrorProtocol` (errors.py): how a component's errors are handled. -/
structure ErrorProtocol where
  onError : String
  maxRetries : Nat
  retryDelaySeconds : Nat
  defaultValue : PyVal

/-- `DEFAULT_ERROR_PROTOCOL` (errors.py): stop on any error. -/
def defaultErrorProtocol : ErrorProtocol :=
  ErrorProtocol.mk "stop" 3 1 PyVal.none

/-- `ErrorProtocol.should_retry` (errors.py). -/
def ErrorProtocol.shouldRetry (p : ErrorProtocol) (attempt : Nat) : Bool :=
  p.onError == "retry" && attempt < p.maxRetries

/-- `ErrorRecord` (errors.py): record of an error during execution.  The
free-form `context` dict (which stores the raw step) is not modelled. -/
structure ErrorRecord where
  errorType : String
  message : String
  componentId : Option String
  stepIndex : Option Nat
  recovered : Bool
  recoveryAction : Option String
  deriving DecidableEq

/-- A minimal model of a tracer record (`ExecutionTrace`, tracing.py):
enough to show traces are collected and returned. -/
structure TraceRec where
  stepType : String
  componentId : String
  success : Bool
  deriving DecidableEq

/-- A flow step (the tagged step variants the engine dispatches on).
`loop`'s `as`/`index` and `cond`'s `if` are optional exactly where the
source uses `.get` with a default. -/
inductive Step where
  | source : String → Step
  | call : String → List (String × PyVal) → List (String × String) → Step
  | sink : String → List (String × PyVal) → Step
  | loop : String → Option String → Option String → List Step → Step
  | cond : Option PyVal → List Step → List Step → Step

/-- The modelled component contract: a category (from the manifest), an
input validator, and an `execute` that either returns outputs together
with the `context.write(data, to="return")` payloads it emitted in
order, or raises.  Component `execute` bodies are external code; this
interface captures the effects the engine core observes. -/
structure Component where
  category : String
  validateOk : List (String × PyVal) → Bool
  validateMsg : List (String × PyVal) → String
  execute : List (String × PyVal) →
    PRes (List (String × PyVal) × List (List (String × PyVal)))

/-- The engine's environment after `load_plan`/`set_inputs`: the registry
type universe, the instantiated components, the plan's component type
declarations, flow, name, error protocol and the user-supplied plan
inputs. -/
structure EngineEnv where
  registryTypes : List String
  components : List (String × Component)
  compTypes : List (String × String)
  flow : List Step
  planName : String
  errorProtocol : ErrorProtocol
  planInputs : List (String × PyVal)

/-- Execution statistics (`DataflowEngine._stats`). -/
structure Stats where
  componentsExecuted : Nat
  stepsExecuted : Nat
  errorsRecovered : Nat
  deriving DecidableEq

/-- An event of the persistent engine's append-only state log
(persistence.py).  Timestamps and wall-clock durations are not
modelled. -/
inductive Event where
  | runStart : String → String → Event
  | callStart : String → String → Event
  | callComplete : String → String → List (String × PyVal) → Event
  | iterationStart : String → String → Nat → Event
  | iterationComplete : String → Event
  | runComplete : Bool → Nat → Event
  deriving DecidableEq

/-- `RunState` (persistence.py): the in-memory caches rebuilt from the
event log.  Python's sets are modelled as duplicate-free lists. -/
structure RunState where
  runId : String
  planName : String
  completedCalls : List (String × List (String × PyVal))
  completedIterations : List String
  pendingCalls : List String
  totalEvents : Nat
  callsCached : Nat
  iterationsCached : Nat
  deriving DecidableEq

/-- Generic association-list assignment (Python dict update at a key). -/
def listSet {α : Type} (k : String) (v : α) : List (String × α) → List (String × α)
  | [] => [(k, v)]
  | (k0, v0) :: rest => if k0 = k then (k, v) :: rest else (k0, v0) :: listSet k v rest

/-- Python `set.add`: append when absent. -/
def addOnce (k : String) (l : List String) : List String :=
  if l.contains k then l else l ++ [k]

/-- Python `set.discard`. -/
def discard (k : String) (l : List String) : List String :=
  l.filter (fun x => x ≠ k)

/-- The full interpreter state: the context (loop frames innermost-first
over the root scope), the root-held caches, the error and trace lists,
statistics, and the persistent engine's run state, loop path and emitted
event log (ignored by the base engine).  `executed` is a ghost log of
the component ids whose `execute` was invoked, in order. -/
structure EngineState where
  frames : List (List (String × PyVal))
  rootVars : List (String × PyVal)
  rootComps : List (String × List (String × PyVal))
  returnsAcc : List (String × PyVal)
  sinkIds : List String
  finalizedSinks : List String
  errors : List ErrorRecord
  stats : Stats
  traces : List TraceRec
  runState : RunState
  loopPath : List String
  eventLog : List Event
  executed : List String

/-- The scope chain the context presents to `get`/`resolve`: each loop
frame carries only variables; the root carries the plan variables and the
component-output cache. -/
def chainOf (st : EngineState) : List ScopeData :=
  st.frames.map (fun f => ScopeData.mk f []) ++ [ScopeData.mk st.rootVars st.rootComps]

/-- `ExecutionContext.set`: assign in the innermost scope. -/
def stSet (name : String) (v : PyVal) (st : EngineState) : EngineState :=
  match st.frames with
  | f :: rest => { st with frames := dictSet name v f :: rest }
  | [] => { st with rootVars := dictSet name v st.rootVars }

/-- `ExecutionContext.set_component_output`: always stored at the root. -/
def stSetCompOutput (compId : String) (outs : List (String × PyVal)) (st : EngineState) :
    EngineState :=
  { st with rootComps := listSet compId outs st.rootComps }

/-- `ExecutionContext._write_return`: merge the payload into the root
returns accumulator. -/
def stWriteReturn (data : List (String × PyVal)) (st : EngineState) : EngineState :=
  { st with returnsAcc := dictUpdate st.returnsAcc data }

/-- Apply a component's return-destination writes in order. -/
def stApplyWrites (writes : List (List (String × PyVal))) (st : EngineState) : EngineState :=
  writes.foldl (fun acc w => stWriteReturn w acc) st

/-- `PersistentEngine._log_event` (the state file is always set during a
persistent run): append to the log and count it. -/
def stLogEvent (e : Event) (st : EngineState) : EngineState :=
  { st with
      eventLog := st.eventLog ++ [e]
      runState := { st.runState with totalEvents := st.runState.totalEvents + 1 } }

/-- Outcome of a modelled engine computation: normal return, a raised
exception (type and message), divergence, or fuel exhaustion (never
reached when the caller supplies enough budget). -/
inductive Outcome where
  | ok : Outcome
  | exc : String → String → Outcome
  | hang : Outcome
  | timeout : Outcome
  deriving DecidableEq

/-- Apply a call step's `outputs` mapping: for each declared
`output → variable` pair whose output is present, set the variable in the
current scope. -/
def applyOutputsMapping (mapping : List (String × String)) (outs : List (String × PyVal))
    (st : EngineState) : EngineState :=
  mapping.foldl (fun acc kv =>
    match outs.lookup kv.1 with
    | Option.some v => stSet kv.2 v acc
    | Option.none => acc) st

/-- Python iterability as the loop uses it (`hasattr(c, "__iter__")` and
then `enumerate`): lists yield their items, strings their characters,
dicts their keys; numbers, booleans and `None` are not iterable. -/
def pyIter : PyVal → Option (List PyVal)
  | PyVal.list l => Option.some l
  | PyVal.str s => Option.some (s.data.map (fun c => PyVal.str (String.mk [c])))
  | PyVal.dict d => Option.some (d.map (fun kv => PyVal.str kv.1))
  | _ => Option.none

/-- Count a component-execute invocation in the ghost log and the stats
bump the source performs on success. -/
def bumpComponents (st : EngineState) : EngineState :=
  { st with stats := { st.stats with componentsExecuted := st.stats.componentsExecuted + 1 } }

/-- `DataflowEngine._execute_source` (engine.py): run the source with
empty inputs, store its outputs at the root cache; every exception is
wrapped as a `ComponentError`. -/
def execSource (env : EngineEnv) (sourceId : String) (st : EngineState) :
    EngineState × Outcome :=
  match env.components.lookup sourceId with
  | Option.none => (st, Outcome.exc "KeyError" sourceId)
  | Option.some component =>
      let st := { st with executed := st.executed ++ [sourceId] }
      match component.execute [] with
      | PRes.ok (outs, writes) =>
          let st := stApplyWrites writes st
          let st := stSetCompOutput sourceId outs st
          (bumpComponents st, Outcome.ok)
      | PRes.exn ty msg =>
          (st, Outcome.exc "ComponentError"
            ("Error loading source '" ++ sourceId ++ "': " ++ ty ++ ": " ++ msg))
      | PRes.hang => (st, Outcome.hang)

/-- `DataflowEngine._execute_call` (engine.py): resolve the declared
inputs (outside the try block, so resolution errors propagate raw),
validate, execute, map outputs into the current scope, store the full
outputs at the root cache.  A `ComponentError` is re-raised as is; any
other exception is wrapped. -/
def execCallBase (env : EngineEnv) (compId : String) (spec : List (String × PyVal))
    (mapping : List (String × String)) (st : EngineState) : EngineState × Outcome :=
  match env.components.lookup compId with
  | Option.none => (st, Outcome.exc "KeyError" compId)
  | Option.some component =>
      match resolveInputs (chainOf st) spec with
      | PRes.exn ty msg => (st, Outcome.exc ty msg)
      | PRes.hang => (st, Outcome.hang)
      | PRes.ok inputs =>
          if ¬ component.validateOk inputs then
            let st := { st with traces := st.traces ++ [TraceRec.mk "call" compId false] }
            (st, Outcome.exc "ComponentError"
              ("Input validation failed: " ++ component.validateMsg inputs))
          else
            let st := { st with executed := st.executed ++ [compId] }
            match component.execute inputs with
            | PRes.ok (outs, writes) =>
                let st := stApplyWrites writes st
                let st := applyOutputsMapping mapping outs st
                let st := stSetCompOutput compId outs st
                let st := bumpComponents st
                let st := { st with traces := st.traces ++ [TraceRec.mk "call" compId true] }
                (st, Outcome.ok)
            | PRes.exn ty msg =>
                let st := { st with traces := st.traces ++ [TraceRec.mk "call" compId false] }
                if ty = "ComponentError" then (st, Outcome.exc ty msg)
                else
                  (st, Outcome.exc "ComponentError"
                    ("Error in '" ++ compId ++ "': " ++ ty ++ ": " ++ msg))
            | PRes.hang => (st, Outcome.hang)

/-- `DataflowEngine._execute_sink` (engine.py): resolve inputs, execute,
store outputs at the root cache and mark the sink finalized; every
exception is wrapped as a `ComponentError`. -/
def execSinkStep (env : EngineEnv) (sinkId : String) (spec : List (String × PyVal))
    (st : EngineState) : EngineState × Outcome :=
  match env.components.lookup sinkId with
  | Option.none => (st, Outcome.exc "KeyError" sinkId)
  | Option.some component =>
      match resolveInputs (chainOf st) spec with
      | PRes.exn ty msg => (st, Outcome.exc ty msg)
      | PRes.hang => (st, Outcome.hang)
      | PRes.ok inputs =>
          let st := { st with executed := st.executed ++ [sinkId] }
          match component.execute inputs with
          | PRes.ok (outs, writes) =>
              let st := stApplyWrites writes st
              let st := stSetCompOutput sinkId outs st
              let st := { st with finalizedSinks := addOnce sinkId st.finalizedSinks }
              (bumpComponents st, Outcome.ok)
          | PRes.exn ty msg =>
              (st, Outcome.exc "ComponentError"
                ("Error finalizing sink '" ++ sinkId ++ "': " ++ ty ++ ": " ++ msg))
          | PRes.hang => (st, Outcome.hang)

/-- The iteration path entry `f"\x7bloop_var\x7d[\x7bi\x7d]:\x7bitem\x7d"`
built by `PersistentEngine._execute_loop`, which is also the trailing
part of `_get_iteration_key`'s format string. -/
def iterSeg (loopVar : String) (i : Nat) (item : PyVal) : String :=
  loopVar ++ "[" ++ toString i ++ "]:" ++ pystr item

/-- `PersistentEngine._get_iteration_key` (persistence.py): the current
`_current_loop_path` joined with `/`, then `/`, then the
`loop_var[index]:item` segment. -/
def getIterationKey (loopPath : List String) (loopVar : String) (item : PyVal) (i : Nat) :
    String :=
  String.intercalate "/" loopPath ++ "/" ++ iterSeg loopVar i item

/-- `PersistentEngine._execute_call` (persistence.py): after resolving
inputs and computing the call fingerprint, a cache hit applies the
cached outputs to the outputs mapping and the root cache and returns —
logging no event, starting no trace and never invoking the component.
On a miss the call is logged, validated, executed and cached; unlike the
base engine, exceptions from `execute` are re-raised unwrapped. -/
def execCallPers (env : EngineEnv) (compId : String) (spec : List (String × PyVal))
    (mapping : List (String × String)) (st : EngineState) : EngineState × Outcome :=
  match env.components.lookup compId with
  | Option.none => (st, Outcome.exc "KeyError" compId)
  | Option.some component =>
      match resolveInputs (chainOf st) spec with
      | PRes.exn ty msg => (st, Outcome.exc ty msg)
      | PRes.hang => (st, Outcome.hang)
      | PRes.ok inputs =>
          let callHash := computeCallHash compId inputs
          match st.runState.completedCalls.lookup callHash with
          | Option.some cached =>
              let st := applyOutputsMapping mapping cached st
              let st := stSetCompOutput compId cached st
              (bumpComponents st, Outcome.ok)
          | Option.none =>
              let st := stLogEvent (Event.callStart compId callHash) st
              if ¬ component.validateOk inputs then
                let st := { st with traces := st.traces ++ [TraceRec.mk "call" compId false] }
                (st, Outcome.exc "ComponentError"
                  ("Input validation failed: " ++ component.validateMsg inputs))
              else
                let st := { st with executed := st.executed ++ [compId] }
                match component.execute inputs with
                | PRes.ok (outs, writes) =>
                    let st := stApplyWrites writes st
                    let st := stLogEvent (Event.callComplete compId callHash outs) st
                    let rs2 := { st.runState with
                      completedCalls := listSet callHash outs st.runState.completedCalls }
                    let st := { st with runState := rs2 }
                    let st := applyOutputsMapping mapping outs st
                    let st := stSetCompOutput compId outs st
                    let st := bumpComponents st
                    let st := { st with traces := st.traces ++ [TraceRec.mk "call" compId true] }
                    (st, Outcome.ok)
                | PRes.exn ty msg =>
                    let st := { st with traces := st.traces ++ [TraceRec.mk "call" compId false] }
                    (st, Outcome.exc ty msg)
                | PRes.hang => (st, Outcome.hang)

/-- The loop variables of one iteration (`loop_vars` in the source): the
`as` binding, plus the index binding when an `index` name is declared. -/
def loopVarsOf (loopVar : String) (ixv : Option String) (item : PyVal) (i : Nat) :
    List (String × PyVal) :=
  match ixv with
  | Option.some ix => dictSet ix (PyVal.int (Int.ofNat i)) [(loopVar, item)]
  | Option.none => [(loopVar, item)]

mutual

/-- `DataflowEngine._execute_steps` (engine.py): run steps in order,
counting each; a raised exception is recorded and handled per the error
protocol — `stop` records and re-raises as an `ExecutionError`, `skip`
records a recovered error and continues, and any other protocol value
(including `retry` and `default`) silently discards the error and
continues.  The budget decreases at every recursive call. -/
def bStepsF (env : EngineEnv) : Nat → Nat → List Step → EngineState → EngineState × Outcome
  | 0, _, _, st => (st, Outcome.timeout)
  | _ + 1, _, [], st => (st, Outcome.ok)
  | fuel + 1, i, step :: rest, st =>
      let st := { st with stats := { st.stats with stepsExecuted := st.stats.stepsExecuted + 1 } }
      match bStepF env fuel step st with
      | (st2, Outcome.ok) => bStepsF env fuel (i + 1) rest st2
      | (st2, Outcome.exc ty msg) =>
          let record := ErrorRecord.mk ty msg Option.none (Option.some i) false Option.none
          if env.errorProtocol.onError = "stop" then
            let st3 := { st2 with errors := st2.errors ++ [record] }
            (st3, Outcome.exc "ExecutionError" ("Step " ++ toString i ++ " failed: " ++ msg))
          else if env.errorProtocol.onError = "skip" then
            let record2 := { record with
                             recovered := true
                             recoveryAction := Option.some "skipped" }
            let st3 := { st2 with
                         errors := st2.errors ++ [record2]
                         stats := { st2.stats with
                           errorsRecovered := st2.stats.errorsRecovered + 1 } }
            bStepsF env fuel (i + 1) rest st3
          else
            bStepsF env fuel (i + 1) rest st2
      | (st2, out) => (st2, out)

/-- `DataflowEngine._execute_step` (engine.py): dispatch on the step
tag. -/
def bStepF (env : EngineEnv) : Nat → Step → EngineState → EngineState × Outcome
  | 0, _, st => (st, Outcome.timeout)
  | _ + 1, Step.source sid, st => execSource env sid st
  | _ + 1, Step.call cid spec mapping, st => execCallBase env cid spec mapping st
  | _ + 1, Step.sink sid spec, st => execSinkStep env sid spec st
  | fuel + 1, Step.loop over asv ixv inner, st => bLoopF env fuel over asv ixv inner st
  | fuel + 1, Step.cond ifv thenS elseS, st =>
      match ctxResolve (chainOf st) (ifv.getD (PyVal.str "false")) with
      | PRes.exn ty msg => (st, Outcome.exc ty msg)
      | PRes.hang => (st, Outcome.hang)
      | PRes.ok condition =>
          if isTruthy condition then bStepsF env fuel 0 thenS st
          else if elseS.isEmpty then (st, Outcome.ok)
          else bStepsF env fuel 0 elseS st

/-- `DataflowEngine._execute_loop` (engine.py): resolve the `over`
reference through the template engine, fail on `None` or a non-iterable,
then iterate (progress printing is console-only and not modelled). -/
def bLoopF (env : EngineEnv) : Nat → String → Option String → Option String → List Step →
    EngineState → EngineState × Outcome
  | 0, _, _, _, _, st => (st, Outcome.timeout)
  | fuel + 1, over, asv, ixv, inner, st =>
      match ctxResolve (chainOf st) (PyVal.str ("\x7b" ++ over ++ "\x7d")) with
      | PRes.exn ty msg => (st, Outcome.exc ty msg)
      | PRes.hang => (st, Outcome.hang)
      | PRes.ok collection =>
          if collection.isNone then
            (st, Outcome.exc "ExecutionError"
              ("Loop 'over' reference '" ++ over ++ "' resolved to None"))
          else
            match pyIter collection with
            | Option.none =>
                (st, Outcome.exc "ExecutionError"
                  ("Loop 'over' reference '" ++ over ++ "' is not iterable"))
            | Option.some items =>
                bItersF env fuel (asv.getD "item") ixv inner items 0 st

/-- The iteration loop of `DataflowEngine._execute_loop`: a fresh child
scope per item, inner steps run inside it, the child scope is discarded
afterwards. -/
def bItersF (env : EngineEnv) : Nat → String → Option String → List Step → List PyVal →
    Nat → EngineState → EngineState × Outcome
  | 0, _, _, _, _, _, st => (st, Outcome.timeout)
  | _ + 1, _, _, _, [], _, st => (st, Outcome.ok)
  | fuel + 1, loopVar, ixv, inner, item :: rest, i, st =>
      let st2 := { st with frames := loopVarsOf loopVar ixv item i :: st.frames }
      match bStepsF env fuel 0 inner st2 with
      | (st3, Outcome.ok) =>
          let st4 := { st3 with frames := st3.frames.tail }
          bItersF env fuel loopVar ixv inner rest (i + 1) st4
      | (st3, out) => (st3, out)

end

mutual

/-- `_execute_steps` as inherited by `PersistentEngine`: identical error
handling around the persistent step dispatcher. -/
def pStepsF (env : EngineEnv) : Nat → Nat → List Step → EngineState → EngineState × Outcome
  | 0, _, _, st => (st, Outcome.timeout)
  | _ + 1, _, [], st => (st, Outcome.ok)
  | fuel + 1, i, step :: rest, st =>
      let st := { st with stats := { st.stats with stepsExecuted := st.stats.stepsExecuted + 1 } }
      match pStepF env fuel step st with
      | (st2, Outcome.ok) => pStepsF env fuel (i + 1) rest st2
      | (st2, Outcome.exc ty msg) =>
          let record := ErrorRecord.mk ty msg Option.none (Option.some i) false Option.none
          if env.errorProtocol.onError = "stop" then
            let st3 := { st2 with errors := st2.errors ++ [record] }
            (st3, Outcome.exc "ExecutionError" ("Step " ++ toString i ++ " failed: " ++ msg))
          else if env.errorProtocol.onError = "skip" then
            let record2 := { record with
                             recovered := true
                             recoveryAction := Option.some "skipped" }
            let st3 := { st2 with
                         errors := st2.errors ++ [record2]
                         stats := { st2.stats with
                           errorsRecovered := st2.stats.errorsRecovered + 1 } }
            pStepsF env fuel (i + 1) rest st3
          else
            pStepsF env fuel (i + 1) rest st2
      | (st2, out) => (st2, out)

/-- `_execute_step` with the persistent overrides: `call` goes to the
caching `_execute_call` and `loop` to the checkpointing
`_execute_loop`; source, sink and conditional behave as in the base
engine. -/
def pStepF (env : EngineEnv) : Nat → Step → EngineState → EngineState × Outcome
  | 0, _, st => (st, Outcome.timeout)
  | _ + 1, Step.source sid, st => execSource env sid st
  | _ + 1, Step.call cid spec mapping, st => execCallPers env cid spec mapping st
  | _ + 1, Step.sink sid spec, st => execSinkStep env sid spec st
  | fuel + 1, Step.loop over asv ixv inner, st => pLoopF env fuel over asv ixv inner st
  | fuel + 1, Step.cond ifv thenS elseS, st =>
      match ctxResolve (chainOf st) (ifv.getD (PyVal.str "false")) with
      | PRes.exn ty msg => (st, Outcome.exc ty msg)
      | PRes.hang => (st, Outcome.hang)
      | PRes.ok condition =>
          if isTruthy condition then pStepsF env fuel 0 thenS st
          else if elseS.isEmpty then (st, Outcome.ok)
          else pStepsF env fuel 0 elseS st

/-- `PersistentEngine._execute_loop` (persistence.py): the same resolve
and iterability checks as the base loop, then checkpointed iteration. -/
def pLoopF (env : EngineEnv) : Nat → String → Option String → Option String → List Step →
    EngineState → EngineState × Outcome
  | 0, _, _, _, _, st => (st, Outcome.timeout)
  | fuel + 1, over, asv, ixv, inner, st =>
      match ctxResolve (chainOf st) (PyVal.str ("\x7b" ++ over ++ "\x7d")) with
      | PRes.exn ty msg => (st, Outcome.exc ty msg)
      | PRes.hang => (st, Outcome.hang)
      | PRes.ok collection =>
          if collection.isNone then
            (st, Outcome.exc "ExecutionError"
              ("Loop 'over' reference '" ++ over ++ "' resolved to None"))
          else
            match pyIter collection with
            | Option.none =>
                (st, Outcome.exc "ExecutionError"
                  ("Loop 'over' reference '" ++ over ++ "' is not iterable"))
            | Option.some items =>
                pItersF env fuel (asv.getD "item") ixv inner items 0 st

/-- The iteration loop of `PersistentEngine._execute_loop`: push the
iteration's path entry, compute the iteration key (so the key contains
the entry just pushed), skip the iteration entirely when the key is in
`completed_iterations`, otherwise log `iteration_start`, run the inner
steps in a child scope, log `iteration_complete`, record the key and pop
the path entry.  A propagating exception leaves the path entry pushed,
as in the source. -/
def pItersF (env : EngineEnv) : Nat → String → Option String → List Step → List PyVal →
    Nat → EngineState → EngineState × Outcome
  | 0, _, _, _, _, _, st => (st, Outcome.timeout)
  | _ + 1, _, _, _, [], _, st => (st, Outcome.ok)
  | fuel + 1, loopVar, ixv, inner, item :: rest, i, st =>
      let st1 := { st with loopPath := st.loopPath ++ [iterSeg loopVar i item] }
      let iterKey := getIterationKey st1.loopPath loopVar item i
      if st1.runState.completedIterations.contains iterKey then
        let st2 := { st1 with loopPath := st1.loopPath.dropLast }
        pItersF env fuel loopVar ixv inner rest (i + 1) st2
      else
        let st2 := stLogEvent (Event.iterationStart iterKey loopVar i) st1
        let st3 := { st2 with frames := loopVarsOf loopVar ixv item i :: st2.frames }
        match pStepsF env fuel 0 inner st3 with
        | (st4, Outcome.ok) =>
            let st5 := { st4 with frames := st4.frames.tail }
            let st6 := stLogEvent (Event.iterationComplete iterKey) st5
            let rs7 := { st6.runState with
              completedIterations := addOnce iterKey st6.runState.completedIterations }
            let st7 := { st6 with runState := rs7 }
            let st8 := { st7 with loopPath := st7.loopPath.dropLast }
            pItersF env fuel loopVar ixv inner rest (i + 1) st8
        | (st4, out) => (st4, out)

end

/-- `ExecutionResult` (engine.py): exactly the fields the source
dataclass declares — `success`, per-sink `outputs`, `errors`,
`duration_seconds` (timing is not modelled and stays `0`), `stats` and
`traces`. -/
structure ExecutionResult where
  success : Bool
  outputs : List (String × List (String × PyVal))
  errors : List ErrorRecord
  durationSeconds : Nat
  stats : Stats
  traces : List TraceRec

/-- Outcome of a whole `execute()` call: a result (with the final state,
kept so theorems can inspect the context the engine dropped), a raised
exception such as the validator's `ValidationError`, divergence, or fuel
exhaustion. -/
inductive RunOut where
  | res : ExecutionResult → EngineState → RunOut
  | raised : String → String → RunOut
  | hang : RunOut
  | timeout : RunOut

mutual

/-- One step of the `check_flow` walk of `DataflowEngine.validate`
(engine.py): an error for a `source`/`call`/`sink` step that references
a component id that was not instantiated; recursion into loops and
conditional branches. -/
def checkFlowStep (comps : List (String × Component)) : Step → String → List String
  | Step.call cid _ _, stepPath =>
      if (comps.lookup cid).isSome then []
      else [stepPath ++ ": references unknown component '" ++ cid ++ "'"]
  | Step.source sid, stepPath =>
      if (comps.lookup sid).isSome then []
      else [stepPath ++ ": references unknown source '" ++ sid ++ "'"]
  | Step.sink sid _, stepPath =>
      if (comps.lookup sid).isSome then []
      else [stepPath ++ ": references unknown sink '" ++ sid ++ "'"]
  | Step.loop _ _ _ inner, stepPath =>
      checkFlowList comps inner 0 (stepPath ++ ".loop.steps")
  | Step.cond _ thenS elseS, stepPath =>
      checkFlowList comps thenS 0 (stepPath ++ ".conditional.then") ++
      checkFlowList comps elseS 0 (stepPath ++ ".conditional.else")
  termination_by structural s => s

/-- The enumeration loop of `check_flow`. -/
def checkFlowList (comps : List (String × Component)) :
    List Step → Nat → String → List String
  | [], _, _ => []
  | step :: rest, i, path =>
      checkFlowStep comps step (path ++ "[" ++ toString i ++ "]") ++
      checkFlowList comps rest (i + 1) path
  termination_by structural l => l

end

/-- `DataflowEngine.validate` (engine.py): unknown registry types for the
plan's component definitions, then the flow-reference walk. -/
def validateEngine (env : EngineEnv) : List String :=
  (env.compTypes.filterMap (fun kv =>
    if env.registryTypes.contains kv.2 then Option.none
    else Option.some ("Unknown component type: " ++ kv.2))) ++
  checkFlowList env.components env.flow 0 "flow"

/-- `DataflowEngine._collect_outputs` (engine.py): for every component
whose manifest category is `sink`, include its root-cache outputs when
they are non-empty. -/
def collectOutputs (env : EngineEnv) (st : EngineState) :
    List (String × List (String × PyVal)) :=
  env.components.filterMap (fun kv =>
    if kv.2.category = "sink" then
      match st.rootComps.lookup kv.1 with
      | Option.some outs => if outs.isEmpty then Option.none else Option.some (kv.1, outs)
      | Option.none => Option.none
    else Option.none)

/-- The sink ids registered at `execute()` start: plan components whose
declared type starts with `sink/`. -/
def sinkIdsOf (env : EngineEnv) : List String :=
  env.compTypes.filterMap (fun kv =>
    if kv.2.data.take 5 = ['s', 'i', 'n', 'k', '/'] then Option.some kv.1 else Option.none)

/-- A fresh `RunState` (the `RunState(run_id=...)` constructor). -/
def freshRunState (runId : String) : RunState :=
  RunState.mk runId "" [] [] [] 0 0 0

/-- The engine state at the start of `execute()`: a root context holding
the user-supplied plan inputs, the registered sinks, reset statistics
and an empty error/trace log. -/
def mkInitState (env : EngineEnv) (rs : RunState) : EngineState :=
  EngineState.mk [] env.planInputs [] [] (sinkIdsOf env) [] []
    (Stats.mk 0 0 0) [] rs [] [] []

/-- The body of `DataflowEngine.execute` (engine.py), parametric in the
step-walker so the persistent subclass's overrides take effect: run the
validator and abort by raising `ValidationError`; otherwise walk the
flow; on normal completion collect the per-sink outputs and report
success exactly when every recorded error was recovered; on a
propagating exception record it and report failure with empty outputs.
The accumulated return-destination data (`context.get_returns()`) is
read by neither path. -/
def engineExecuteCore
    (runSteps : Nat → List Step → EngineState → EngineState × Outcome)
    (env : EngineEnv) (fuel : Nat) (st0 : EngineState) : RunOut :=
  if ¬ (validateEngine env).isEmpty then
    RunOut.raised "ValidationError" "Plan validation failed"
  else
    match runSteps fuel env.flow st0 with
    | (st, Outcome.ok) =>
        RunOut.res
          (ExecutionResult.mk ((st.errors.filter (fun e => ¬ e.recovered)).isEmpty)
            (collectOutputs env st) st.errors 0 st.stats st.traces) st
    | (st, Outcome.exc ty msg) =>
        let st2 := { st with errors :=
          st.errors ++ [ErrorRecord.mk ty msg Option.none Option.none false Option.none] }
        RunOut.res (ExecutionResult.mk false [] st2.errors 0 st2.stats st2.traces) st2
    | (_, Outcome.hang) => RunOut.hang
    | (_, Outcome.timeout) => RunOut.timeout

/-- `DataflowEngine.execute` with the base step walker. -/
def engineExecute (env : EngineEnv) (fuel : Nat) : RunOut :=
  engineExecuteCore (fun f steps st => bStepsF env f 0 steps st) env fuel
    (mkInitState env (freshRunState ""))

/-- `PersistentEngine._apply_event` (persistence.py): rebuild the caches
from one event.  `call_start` tracks a pending call, `call_complete`
moves it to the completed cache, `iteration_complete` records the key;
empty hashes and keys are ignored as in the source. -/
def applyEvent (s : RunState) : Event → RunState
  | Event.runStart _ planName => { s with planName := planName }
  | Event.callStart _ h =>
      if h = "" then s else { s with pendingCalls := addOnce h s.pendingCalls }
  | Event.callComplete _ h outs =>
      if h = "" then s
      else
        { s with
          pendingCalls := discard h s.pendingCalls
          completedCalls := listSet h outs s.completedCalls
          callsCached := s.callsCached + 1 }
  | Event.iterationStart _ _ _ => s
  | Event.iterationComplete k =>
      if k = "" then s
      else
        { s with
          completedIterations := addOnce k s.completedIterations
          iterationsCached := s.iterationsCached + 1 }
  | Event.runComplete _ _ => s

/-- `PersistentEngine._load_existing_state` (persistence.py): stream the
state file's lines, applying every well-formed event and silently
skipping malformed ones (`Option.none` entries model lines that fail
JSON parsing, e.g. a truncated final line); the total-event counter
counts only applied events. -/
def loadStep (acc : RunState × Nat) (line : Option Event) : RunState × Nat :=
  match line with
  | Option.some e => (applyEvent acc.1 e, acc.2 + 1)
  | Option.none => acc

/-- The fold of `_load_existing_state` over the state file's lines. -/
def loadEvents (runId : String) (lines : List (Option Event)) : RunState :=
  let loaded := lines.foldl loadStep (freshRunState runId, 0)
  { loaded.1 with totalEvents := loaded.2 }

/-- `PersistentEngine.execute` (persistence.py): when a state file exists
its events are replayed into the caches and the run counts as resuming;
otherwise `run_start` is logged.  The plan is then executed through the
base `execute` with the persistent step walker, and `run_complete` is
logged with the result.  The completion callback is an external hook and
is not modelled. -/
def persExecute (env : EngineEnv) (runId : String)
    (stateFile : Option (List (Option Event))) (fuel : Nat) : RunOut :=
  let loaded :=
    match stateFile with
    | Option.some lines =>
        let rs := loadEvents runId lines
        (rs, rs.totalEvents != 0)
    | Option.none => (freshRunState runId, false)
  let st0 := mkInitState env loaded.1
  let st0 := if loaded.2 then st0 else stLogEvent (Event.runStart runId env.planName) st0
  match engineExecuteCore (fun f steps st => pStepsF env f 0 steps st) env fuel st0 with
  | RunOut.res r st =>
      RunOut.res r (stLogEvent (Event.runComplete r.success r.errors.length) st)
  | o => o

/-- A transform that echoes its `x` input as output `y` (a concrete
component used by counterexample runs). -/
def echoComp : Component :=
  Component.mk "transform" (fun _ => true) (fun _ => "")
    (fun inputs => PRes.ok ([("y", dictGet inputs "x" PyVal.none)], []))

/-- The concrete plan for the conditional counterexample: one conditional
whose `if` is the unresolvable placeholder `\x7bundefined_var\x7d`; the
branches mark which one ran by setting the variable `branch`. -/
def condEnv : EngineEnv :=
  EngineEnv.mk ["transform/echo"] [("t", echoComp)] [("t", "transform/echo")]
    [Step.cond (Option.some (PyVal.str "\x7bundefined_var\x7d"))
      [Step.call "t" [("x", PyVal.str "then-ran")] [("y", "branch")]]
      [Step.call "t" [("x", PyVal.str "else-ran")] [("y", "branch")]]]
    "cond-plan" defaultErrorProtocol []

/-- A sink that writes a payload to the `return` destination (the
modelled `context.write(data, to="return")`). -/
def returnSink : Component :=
  Component.mk "sink" (fun _ => true) (fun _ => "")
    (fun _ => PRes.ok ([("count", PyVal.int 1)], [[("payload", PyVal.str "DATA")]]))

/-- The concrete plan for the C1 run: a single sink step whose component
writes `\x7b"payload": "DATA"\x7d` to the return destination. -/
def returnsEnv : EngineEnv :=
  EngineEnv.mk ["sink/ret"] [("k", returnSink)] [("k", "sink/ret")]
    [Step.sink "k" []]
    "returns-plan" defaultErrorProtocol []

/-- A transform whose `execute` always raises `ValueError: boom`. -/
def failComp : Component :=
  Component.mk "transform" (fun _ => true) (fun _ => "")
    (fun _ => PRes.exn "ValueError" "boom")

/-- The C2 run under `on_error="retry"`: one call step to the failing
component with `max_retries = 3`. -/
def retryEnv : EngineEnv :=
  EngineEnv.mk ["transform/fail"] [("f", failComp)] [("f", "transform/fail")]
    [Step.call "f" [] []]
    "retry-plan" (ErrorProtocol.mk "retry" 3 1 PyVal.none) []

/-- The C2 run under `on_error="default"` with `default_value =
"fallback"`: one call step whose outputs mapping would set `v`. -/
def defaultEnv : EngineEnv :=
  EngineEnv.mk ["transform/fail"] [("f", failComp)] [("f", "transform/fail")]
    [Step.call "f" [] [("y", "v")]]
    "default-plan" (ErrorProtocol.mk "default" 3 1 (PyVal.str "fallback")) []

/-- A plan with one call step to the echo transform, used by the
cache-hit theorems. -/
def hitEnv : EngineEnv :=
  EngineEnv.mk ["transform/echo"] [("t", echoComp)] [("t", "transform/echo")]
    [Step.call "t" [] [("y", "out")]]
    "hit-plan" defaultErrorProtocol []

/-- A state whose in-memory completed-calls cache already holds the
fingerprint of calling `t` with empty inputs. -/
def hitState : EngineState :=
  { mkInitState hitEnv (freshRunState "r") with
      runState := { freshRunState "r" with
        completedCalls := [(computeCallHash "t" [], [("y", PyVal.int 7)])] } }

/-- A state whose completed-iterations cache already holds the key of
iteration 0 of a top-level loop with loop variable `x` over `"a"`. -/
def skipState : EngineState :=
  { mkInitState hitEnv (freshRunState "r") with
      runState := { freshRunState "r" with
        completedIterations :=
          [getIterationKey [iterSeg "x" 0 (PyVal.str "a")] "x" (PyVal.str "a") 0] } }

/-- The concrete plan for the persistent-loop key run: one top-level
loop with loop variable `x` over the plan input `xs`, with no inner
steps. -/
def envC4 : EngineEnv :=
  EngineEnv.mk [] [] [] [Step.loop "xs" (Option.some "x") Option.none []]
    "c4-plan" defaultErrorProtocol
    [("xs", PyVal.list [PyVal.str "a", PyVal.str "b"])]

/-- Decimal value of a digit-character list (left fold); the left
inverse used to show `Nat.repr` is injective. -/
def digitsVal (l : List Char) : Nat :=
  l.foldl (fun a c => a * 10 + (c.toNat - 48)) 0

/-- The characters contributed by the entries of a `"/"`-joined path
that precede its last entry. -/
def joinPrefix : List String → List Char
  | [] => []
  | p :: ps => p.data ++ '/' :: joinPrefix ps

/-- The shape of every iteration key the persistent engine actually
logs: the enclosing path with the current `loop_var[index]:item` segment
already pushed, joined with `/`, followed by `/` and that same segment
again — the current iteration's segment appears twice. -/
def keyShaped (k v : String) (i : Nat) : Prop :=
  ∃ Q t, k = String.intercalate "/" (Q ++ [iterSeg v i t]) ++ "/" ++ iterSeg v i t

/-- Key-shapedness of one log event: `iteration_start` events carry a
key of the shape above; every other event is unconstrained. -/
def eventKeyShaped : Event → Prop
  | Event.iterationStart k v i => keyShaped k v i
  | _ => True

/-- Every event of `st2`'s log is inherited from `st`'s log or is
key-shaped: the invariant the persistent step walkers preserve. -/
def logOkFrom (st st2 : EngineState) : Prop :=
  ∀ e, e ∈ st2.eventLog → e ∈ st.eventLog ∨ eventKeyShaped e

/-- A structured description of a template: literal text interleaved with
`\x7bref\x7d` placeholders.  This is a specification device used to state
the interpolation claim; `mkTemplate` renders it to the concrete string
the engine sees. -/
inductive Chunk where
  | lit : String → Chunk
  | ref : String → Chunk

/-- The concrete text of one chunk. -/
def renderChunk : Chunk → String
  | Chunk.lit s => s
  | Chunk.ref x => "\x7b" ++ x ++ "\x7d"

/-- The template string described by a chunk list. -/
def mkTemplate : List Chunk → String
  | [] => ""
  | c :: rest => renderChunk c ++ mkTemplate rest

/-- Well-formedness of a chunk as the scanner sees it: literal text is
non-empty and free of opening braces; a reference is non-empty and free
of closing braces. -/
def chunkWf : Chunk → Prop
  | Chunk.lit s => s.data ≠ [] ∧ '{' ∉ s.data
  | Chunk.ref x => x.data ≠ [] ∧ '}' ∉ x.data

/-- The substitution the specification describes: literals stay, a
resolvable reference becomes `str(value)`, an unresolved one stays
verbatim. -/
def chunkOut (g : String → PRes PyVal) : Chunk → String
  | Chunk.lit s => s
  | Chunk.ref x =>
      match g x with
      | PRes.ok v => if v.isNone then "\x7b" ++ x ++ "\x7d" else pystr v
      | _ => "\x7b" ++ x ++ "\x7d"

/-- The fully substituted text of a chunk list. -/
def renderOuts (g : String → PRes PyVal) : List Chunk → String
  | [] => ""
  | c :: rest => chunkOut g c ++ renderOuts g rest

/-- Fuel surplus of the interpolation scanner over a chunk list: a
reference consumes one fuel unit for its whole placeholder text. -/
def chunkSurplus : List Chunk → Nat
  | [] => 0
  | Chunk.lit _ :: rest => chunkSurplus rest
  | Chunk.ref x :: rest => x.data.length + 1 + chunkSurplus rest

set_option synthInstance.maxSize 1024

theorem findClose_append (body tail : List Char) (h : '}' ∉ body) :
    findClose (body ++ '}' :: tail) = Option.some (body, tail) := by
  induction body with
  | nil => simp [findClose]
  | cons c rest ih =>
    have hc : ¬ c = '}' := fun hc => h (by simp [hc])
    have hrest : '}' ∉ rest := fun hr => h (by simp [hr])
    simp only [List.cons_append, findClose, hc, if_false, List.append_eq]
    rw [ih hrest]

theorem data_mk (l : List Char) : (String.mk l).data = l := rfl

theorem mk_data (s : String) : String.mk s.data = s := rfl

theorem brace_wrap_data (X : String) :
    ("\x7b" ++ X ++ "\x7d").data = '{' :: X.data ++ ['}'] := by
  have h1 : ("\x7b" ++ X ++ "\x7d").data = "\x7b".data ++ X.data ++ "\x7d".data := by
    simp [String.data_append]
  simpa using h1

/-- A template that is exactly one placeholder around a non-empty,
closing-brace-free name matches the full-placeholder pattern with that
name as its group. -/
theorem fullPlaceholder_wrap (X : String) (h1 : X.data ≠ [])
    (h2 : '}' ∉ X.data) :
    fullPlaceholder ("\x7b" ++ X ++ "\x7d") = Option.some X := by
  have h3 : X.data.isEmpty = false := by
    cases hx : X.data with
    | nil => exact absurd hx h1
    | cons a b => simp
  unfold fullPlaceholder
  rw [brace_wrap_data]
  show (match findClose (X.data ++ ['}']) with
    | Option.some (body, []) =>
        if body.isEmpty then Option.none else Option.some (String.mk body)
    | _ => Option.none) = Option.some X
  rw [findClose_append X.data [] h2]
  simp [h3]

theorem pyLower_head (s : String) (c : Char) (h : s.data.head? = Option.some c) :
    (pyLower s).data.head? = Option.some c.toLower := by
  cases hs : s.data with
  | nil => rw [hs] at h; simp at h
  | cons a rest =>
    rw [hs] at h
    simp only [List.head?] at h
    injection h with h
    simp [pyLower, hs, h]

/-- Any string starting with an opening brace is truthy under
`_is_truthy`: its lowercase form is none of `"false"`, `"no"`, `"0"`,
`""`. -/
theorem isTruthy_of_head_brace (s : String) (h : s.data.head? = Option.some '{') :
    isTruthy (PyVal.str s) = true := by
  have hl : (pyLower s).data.head? = Option.some '{' := by
    have := pyLower_head s '{' h
    simpa using this
  have hf : ∀ t : String, (pyLower s) = t → t.data.head? ≠ Option.some '{' → False := by
    intro t ht hne
    exact hne (ht ▸ hl)
  simp only [isTruthy]
  have h1 : ¬ pyLower s = "false" := fun he => hf "false" he (by decide)
  have h2 : ¬ pyLower s = "no" := fun he => hf "no" he (by decide)
  have h3 : ¬ pyLower s = "0" := fun he => hf "0" he (by decide)
  have h4 : ¬ pyLower s = "" := fun he => hf "" he (by decide)
  simp [h1, h2, h3, h4]

/-- Claim C7: the call fingerprint `_compute_call_hash(component_id,
resolved_inputs)` is the first 16 hex characters of the SHA-256 digest of
`component_id + ":" + json.dumps(resolved_inputs, sort_keys=True)`;
consequently any two computations with equal component ids and inputs
whose sort-stable JSON serializations are byte-equal produce identical
hashes (and the hash is a pure function, hence stable across program
invocations). -/
theorem claim_C7 :
    (∀ (c : String) (i : List (String × PyVal)),
        computeCallHash c i =
          String.mk ((sha256Hex (utf8Bytes
            (c ++ ":" ++ jsonDumps (PyVal.dict i)))).data.take 16)) ∧
    (∀ (c1 c2 : String) (i1 i2 : List (String × PyVal)),
        c1 = c2 → jsonDumps (PyVal.dict i1) = jsonDumps (PyVal.dict i2) →
        computeCallHash c1 i1 = computeCallHash c2 i2) := by
  constructor
  · intro c i
    rfl
  · intro c1 c2 i1 i2 hc hj
    subst hc
    simp only [computeCallHash, hj]

/-- Witness for C7 at concrete inputs: two input dicts built in different
orders have byte-equal sorted JSON, and the theorem yields equal
fingerprints. -/
theorem claim_C7_witness :
    jsonDumps (PyVal.dict [("a", PyVal.int 1), ("b", PyVal.str "x")]) =
      jsonDumps (PyVal.dict [("b", PyVal.str "x"), ("a", PyVal.int 1)]) ∧
    computeCallHash "comp" [("a", PyVal.int 1), ("b", PyVal.str "x")] =
      computeCallHash "comp" [("b", PyVal.str "x"), ("a", PyVal.int 1)] :=
  ⟨by decide, claim_C7.2 "comp" "comp" _ _ rfl (by decide)⟩

/-- The modelled SHA-256 agrees with FIPS 180-4 on the standard `"abc"`
test vector (checked against `hashlib.sha256`). -/
theorem sha256Hex_vector_abc :
    sha256Hex (utf8Bytes "abc") =
      "ba7816bf8f01cfea414140de5dae2223b00361a396177a9cb410ff61f20015ad" := rfl

/-- The modelled SHA-256 agrees with FIPS 180-4 on the empty-message test
vector. -/
theorem sha256Hex_vector_empty :
    sha256Hex (utf8Bytes "") =
      "e3b0c44298fc1c149afbf4c8996fb92427ae41e4649b934ca495991b7852b855" := rfl

/-- Resolving a full placeholder whose reference yields `None` returns
the template string unchanged. -/
theorem resolve_unresolved (chain : List ScopeData) (X : String)
    (h1 : X.data ≠ []) (h2 : '}' ∉ X.data)
    (hg : ctxGet chain X = PRes.ok PyVal.none) :
    ctxResolve chain (PyVal.str ("\x7b" ++ X ++ "\x7d")) =
      PRes.ok (PyVal.str ("\x7b" ++ X ++ "\x7d")) := by
  show resolveString (fun n => ctxGet chain n) ("\x7b" ++ X ++ "\x7d") =
    PRes.ok (PyVal.str ("\x7b" ++ X ++ "\x7d"))
  unfold resolveString
  rw [fullPlaceholder_wrap X h1 h2]
  simp [hg, PRes.bind, PyVal.isNone]

/-- Claim C10: whenever `get(X)` yields `None` — whether `X` is bound to
`None` or not bound at all — resolving the full-placeholder template
`\x7bX\x7d` returns the template string unchanged; two contexts in which
`get(X)` yields `None` are therefore indistinguishable at the
template-resolution interface for that template. -/
theorem claim_C10 (chain chain2 : List ScopeData) (X : String)
    (h1 : X.data ≠ []) (h2 : '}' ∉ X.data)
    (hg : ctxGet chain X = PRes.ok PyVal.none)
    (hg2 : ctxGet chain2 X = PRes.ok PyVal.none) :
    ctxResolve chain (PyVal.str ("\x7b" ++ X ++ "\x7d")) =
      PRes.ok (PyVal.str ("\x7b" ++ X ++ "\x7d")) ∧
    ctxResolve chain2 (PyVal.str ("\x7b" ++ X ++ "\x7d")) =
      ctxResolve chain (PyVal.str ("\x7b" ++ X ++ "\x7d")) :=
  ⟨resolve_unresolved chain X h1 h2 hg,
   (resolve_unresolved chain2 X h1 h2 hg2).trans
     (resolve_unresolved chain X h1 h2 hg).symm⟩

/-- Witness for C10: a context binding `x` to `None` and one not binding
`x` at all both leave `\x7bx\x7d` unresolved. -/
theorem claim_C10_witness :
    ctxResolve [ScopeData.mk [("x", PyVal.none)] []] (PyVal.str "\x7bx\x7d") =
      PRes.ok (PyVal.str "\x7bx\x7d") ∧
    ctxResolve [ScopeData.mk [] []] (PyVal.str "\x7bx\x7d") =
      ctxResolve [ScopeData.mk [("x", PyVal.none)] []] (PyVal.str "\x7bx\x7d") :=
  claim_C10 [ScopeData.mk [("x", PyVal.none)] []] [ScopeData.mk [] []] "x"
    (by decide) (by decide) rfl rfl

/-- Sequencing is associative for modelled computations. -/
theorem PRes.bind_assoc {α β γ : Type} (p : PRes α) (f : α → PRes β) (g : β → PRes γ) :
    PRes.bind (PRes.bind p f) g = PRes.bind p (fun a => PRes.bind (f a) g) := by
  cases p <;> rfl

theorem PRes.bind_ok {α : Type} (p : PRes α) : PRes.bind p PRes.ok = p := by
  cases p <;> rfl

theorem interpAuxF_lit (g : String → PRes PyVal) (lit : List Char) (t : List Char)
    (f : Nat) (h : '{' ∉ lit) :
    interpAuxF g (lit.length + f) (lit ++ t) =
      PRes.bind (interpAuxF g f t) (fun r => PRes.ok (String.mk lit ++ r)) := by
  induction lit with
  | nil =>
    simp only [List.length_nil, Nat.zero_add, List.nil_append]
    rw [show (fun r => PRes.ok (String.mk [] ++ r)) = PRes.ok from rfl]
    exact (PRes.bind_ok _).symm
  | cons c cs ih =>
    have hc : ¬ c = '{' := fun hc => h (by simp [hc])
    have hcs : '{' ∉ cs := fun hx => h (by simp [hx])
    have hlen : (c :: cs).length + f = (cs.length + f) + 1 := by
      simp [Nat.add_assoc, Nat.add_comm]
    rw [hlen]
    show (if c = '{' then _ else
      PRes.bind (interpAuxF g (cs.length + f) (cs ++ t))
        (fun r => PRes.ok (String.mk [c] ++ r))) = _
    rw [if_neg hc, ih hcs, PRes.bind_assoc]
    rfl

theorem strAppend_assoc (a b c : String) : a ++ b ++ c = a ++ (b ++ c) :=
  congrArg String.mk (List.append_assoc a.data b.data c.data)

theorem interpAuxF_nil (g : String → PRes PyVal) (F : Nat) (h : 0 < F) :
    interpAuxF g F [] = PRes.ok "" := by
  cases F with
  | zero => omega
  | succ n => rfl

theorem interp_chunks_gen (g : String → PRes PyVal) :
    ∀ (cs : List Chunk) (f : Nat) (tail : List Char),
      (∀ ch ∈ cs, chunkWf ch) →
      (∀ x, Chunk.ref x ∈ cs → ∃ v, g x = PRes.ok v) →
      interpAuxF g ((mkTemplate cs).data.length + f) ((mkTemplate cs).data ++ tail) =
        PRes.bind (interpAuxF g (f + chunkSurplus cs) tail)
          (fun r => PRes.ok (renderOuts g cs ++ r))
  | [], f, tail, _, _ => by
      show interpAuxF g (0 + f) ([] ++ tail) = _
      simp only [Nat.zero_add, List.nil_append]
      rw [show f + chunkSurplus [] = f from rfl]
      rw [show (fun r => PRes.ok (renderOuts g [] ++ r)) = PRes.ok from rfl]
      exact (PRes.bind_ok _).symm
  | Chunk.lit s :: rest, f, tail, hwf, hres => by
      obtain ⟨hs1, hs2⟩ := hwf _ (List.mem_cons_self _ _)
      have hdata : (mkTemplate (Chunk.lit s :: rest)).data =
          s.data ++ (mkTemplate rest).data := by
        show (renderChunk (Chunk.lit s) ++ mkTemplate rest).data = _
        rw [String.data_append]
        rfl
      have hlen : (s.data ++ (mkTemplate rest).data).length + f =
          s.data.length + ((mkTemplate rest).data.length + f) := by
        rw [List.length_append]
        omega
      rw [hdata, hlen, List.append_assoc]
      rw [interpAuxF_lit g s.data _ _ hs2]
      rw [interp_chunks_gen g rest f tail
        (fun ch hch => hwf ch (List.mem_cons_of_mem _ hch))
        (fun y hy => hres y (List.mem_cons_of_mem _ hy))]
      rw [PRes.bind_assoc]
      rw [show f + chunkSurplus (Chunk.lit s :: rest) = f + chunkSurplus rest from rfl]
      congr 1
      funext r
      show PRes.ok (s ++ (renderOuts g rest ++ r)) = _
      rw [← strAppend_assoc]
      rfl
  | Chunk.ref x :: rest, f, tail, hwf, hres => by
      obtain ⟨hx1, hx2⟩ := hwf _ (List.mem_cons_self _ _)
      obtain ⟨v, hv⟩ := hres x (List.mem_cons_self _ _)
      have hie : x.data.isEmpty = false := by
        cases hx : x.data with
        | nil => exact absurd hx hx1
        | cons a b => simp
      have hdata : (mkTemplate (Chunk.ref x :: rest)).data =
          '{' :: (x.data ++ '}' :: ((mkTemplate rest).data)) := by
        show (renderChunk (Chunk.ref x) ++ mkTemplate rest).data = _
        rw [String.data_append]
        show ('{' :: x.data ++ ['}']) ++ (mkTemplate rest).data = _
        simp [List.append_assoc]
      have hlen : ('{' :: (x.data ++ '}' :: ((mkTemplate rest).data))).length + f =
          ((mkTemplate rest).data.length + (x.data.length + 1 + f)) + 1 := by
        simp only [List.length_cons, List.length_append]
        omega
      rw [hdata, hlen, List.cons_append, List.append_assoc, List.cons_append]
      show (match findClose (x.data ++ '}' :: ((mkTemplate rest).data ++ tail)) with
        | Option.some (body, tl) =>
            if body.isEmpty then
              PRes.bind
                (interpAuxF g ((mkTemplate rest).data.length + (x.data.length + 1 + f))
                  (x.data ++ '}' :: ((mkTemplate rest).data ++ tail)))
                (fun r => PRes.ok ("\x7b" ++ r))
            else
              PRes.bind (g (String.mk body)) (fun v =>
                PRes.bind
                  (interpAuxF g ((mkTemplate rest).data.length + (x.data.length + 1 + f)) tl)
                  (fun r => PRes.ok
                    ((if v.isNone then "\x7b" ++ String.mk body ++ "\x7d" else pystr v) ++ r)))
        | Option.none =>
            PRes.bind
              (interpAuxF g ((mkTemplate rest).data.length + (x.data.length + 1 + f))
                (x.data ++ '}' :: ((mkTemplate rest).data ++ tail)))
              (fun r => PRes.ok ("\x7b" ++ r))) = _
      rw [findClose_append x.data _ hx2]
      show (if x.data.isEmpty then
        PRes.bind
          (interpAuxF g ((mkTemplate rest).data.length + (x.data.length + 1 + f))
            (x.data ++ '}' :: ((mkTemplate rest).data ++ tail)))
          (fun r => PRes.ok ("\x7b" ++ r))
        else
        PRes.bind (g x) (fun v =>
          PRes.bind
            (interpAuxF g ((mkTemplate rest).data.length + (x.data.length + 1 + f))
              ((mkTemplate rest).data ++ tail))
            (fun r => PRes.ok
              ((if v.isNone then "\x7b" ++ x ++ "\x7d" else pystr v) ++ r)))) = _
      rw [hie]
      show PRes.bind (g x) (fun v =>
        PRes.bind
          (interpAuxF g ((mkTemplate rest).data.length + (x.data.length + 1 + f))
            ((mkTemplate rest).data ++ tail))
          (fun r => PRes.ok
            ((if v.isNone then "\x7b" ++ x ++ "\x7d" else pystr v) ++ r))) = _
      rw [hv]
      show PRes.bind
          (interpAuxF g ((mkTemplate rest).data.length + (x.data.length + 1 + f))
            ((mkTemplate rest).data ++ tail))
          (fun r => PRes.ok
            ((if v.isNone then "\x7b" ++ x ++ "\x7d" else pystr v) ++ r)) = _
      rw [interp_chunks_gen g rest (x.data.length + 1 + f) tail
        (fun ch hch => hwf ch (List.mem_cons_of_mem _ hch))
        (fun y hy => hres y (List.mem_cons_of_mem _ hy))]
      rw [PRes.bind_assoc]
      rw [show x.data.length + 1 + f + chunkSurplus rest =
        f + chunkSurplus (Chunk.ref x :: rest) from by
          show _ = f + (x.data.length + 1 + chunkSurplus rest)
          omega]
      congr 1
      funext r
      show PRes.ok ((if v.isNone then "\x7b" ++ x ++ "\x7d" else pystr v) ++
        (renderOuts g rest ++ r)) = PRes.ok (renderOuts g (Chunk.ref x :: rest) ++ r)
      rw [← strAppend_assoc]
      show _ = PRes.ok ((chunkOut g (Chunk.ref x) ++ renderOuts g rest) ++ r)
      rw [show chunkOut g (Chunk.ref x) =
        (if v.isNone then "\x7b" ++ x ++ "\x7d" else pystr v) from by
          show (match g x with
            | PRes.ok v => if v.isNone then "\x7b" ++ x ++ "\x7d" else pystr v
            | _ => "\x7b" ++ x ++ "\x7d") = _
          rw [hv]]

theorem strAppend_empty (a : String) : a ++ "" = a :=
  congrArg String.mk (List.append_nil a.data)

theorem renderChunk_data_ne_nil (ch : Chunk) (h : chunkWf ch) :
    (renderChunk ch).data ≠ [] := by
  cases ch with
  | lit s => exact h.1
  | ref x =>
      show ("\x7b" ++ x ++ "\x7d").data ≠ []
      rw [brace_wrap_data]
      simp

theorem mkTemplate_data_ne_nil (cs : List Chunk) (hwf : ∀ ch ∈ cs, chunkWf ch)
    (hne : cs ≠ []) : (mkTemplate cs).data ≠ [] := by
  cases cs with
  | nil => exact absurd rfl hne
  | cons ch rest =>
      show (renderChunk ch ++ mkTemplate rest).data ≠ []
      rw [String.data_append]
      have := renderChunk_data_ne_nil ch (hwf ch (List.mem_cons_self _ _))
      simp [this]

/-- A well-formed chunk template that is not exactly one reference never
matches the full-placeholder pattern. -/
theorem mixed_not_full (cs : List Chunk) (hwf : ∀ ch ∈ cs, chunkWf ch)
    (hmix : ∀ x, cs ≠ [Chunk.ref x]) :
    fullPlaceholder (mkTemplate cs) = Option.none := by
  cases cs with
  | nil => rfl
  | cons ch rest =>
    cases ch with
    | lit s =>
      obtain ⟨hs1, hs2⟩ := hwf _ (List.mem_cons_self _ _)
      unfold fullPlaceholder
      have hdata : (mkTemplate (Chunk.lit s :: rest)).data =
          s.data ++ (mkTemplate rest).data := by
        show (renderChunk (Chunk.lit s) ++ mkTemplate rest).data = _
        rw [String.data_append]
        rfl
      rw [hdata]
      cases hs : s.data with
      | nil => exact absurd hs hs1
      | cons c cs' =>
        have hc : c ≠ '{' := by
          intro hc
          exact hs2 (by rw [hs, hc]; simp)
        rw [List.cons_append]
        split
        · rename_i heq
          exact absurd (List.head_eq_of_cons_eq heq.symm).symm hc
        · rfl
    | ref x =>
      obtain ⟨hx1, hx2⟩ := hwf _ (List.mem_cons_self _ _)
      have hrneq : rest ≠ [] := by
        intro h
        exact hmix x (by rw [h])
      have hrne : (mkTemplate rest).data ≠ [] :=
        mkTemplate_data_ne_nil rest (fun c hc => hwf c (List.mem_cons_of_mem _ hc)) hrneq
      unfold fullPlaceholder
      have hdata : (mkTemplate (Chunk.ref x :: rest)).data =
          '{' :: (x.data ++ '}' :: ((mkTemplate rest).data)) := by
        show (renderChunk (Chunk.ref x) ++ mkTemplate rest).data = _
        rw [String.data_append]
        show ('{' :: x.data ++ ['}']) ++ (mkTemplate rest).data = _
        simp [List.append_assoc]
      rw [hdata]
      show (match findClose (x.data ++ '}' :: ((mkTemplate rest).data)) with
        | Option.some (body, []) =>
            if body.isEmpty then Option.none else Option.some (String.mk body)
        | _ => Option.none) = Option.none
      rw [findClose_append x.data _ hx2]
      cases hr : (mkTemplate rest).data with
      | nil => exact absurd hr hrne
      | cons d ds => rfl

theorem interp_chunks (g : String → PRes PyVal) (cs : List Chunk)
    (hwf : ∀ ch ∈ cs, chunkWf ch)
    (hres : ∀ x, Chunk.ref x ∈ cs → ∃ v, g x = PRes.ok v) :
    interpAuxF g ((mkTemplate cs).data.length + 1) (mkTemplate cs).data =
      PRes.ok (renderOuts g cs) := by
  have h := interp_chunks_gen g cs 1 [] hwf hres
  rw [List.append_nil] at h
  rw [h, interpAuxF_nil g _ (by omega)]
  show PRes.ok (renderOuts g cs ++ "") = _
  rw [strAppend_empty]

/-- Claim C6: a template that is exactly one placeholder `\x7bX\x7d`
whose reference resolves returns the raw value with its type preserved;
a mixed-content template yields a string in which every resolvable
placeholder is replaced by `str(value)` and every unresolved one is left
verbatim. -/
theorem claim_C6 :
    (∀ (chain : List ScopeData) (X : String) (v : PyVal),
        X.data ≠ [] → '}' ∉ X.data →
        ctxGet chain X = PRes.ok v → v.isNone = false →
        ctxResolve chain (PyVal.str ("\x7b" ++ X ++ "\x7d")) = PRes.ok v) ∧
    (∀ (chain : List ScopeData) (cs : List Chunk),
        (∀ ch ∈ cs, chunkWf ch) →
        (∀ x, Chunk.ref x ∈ cs → ∃ v, ctxGet chain x = PRes.ok v) →
        (∀ x, cs ≠ [Chunk.ref x]) →
        ctxResolve chain (PyVal.str (mkTemplate cs)) =
          PRes.ok (PyVal.str (renderOuts (fun n => ctxGet chain n) cs))) := by
  constructor
  · intro chain X v h1 h2 hg hnn
    show resolveString (fun n => ctxGet chain n) ("\x7b" ++ X ++ "\x7d") = PRes.ok v
    unfold resolveString
    rw [fullPlaceholder_wrap X h1 h2]
    simp [hg, PRes.bind, hnn]
  · intro chain cs hwf hres hmix
    show resolveString (fun n => ctxGet chain n) (mkTemplate cs) = _
    unfold resolveString
    rw [mixed_not_full cs hwf hmix]
    rw [interp_chunks (fun n => ctxGet chain n) cs hwf hres]
    rfl

/-- Witness for C6: in a context binding `x` to the integer 5,
`\x7bx\x7d` resolves to the raw integer, and the template
`a\x7bx\x7d\x7bq\x7db` interpolates to `"a5\x7bq\x7db"` (with the
unresolved `q` left in place). -/
theorem claim_C6_witness :
    ctxResolve [ScopeData.mk [("x", PyVal.int 5)] []] (PyVal.str "\x7bx\x7d") =
      PRes.ok (PyVal.int 5) ∧
    ctxResolve [ScopeData.mk [("x", PyVal.int 5)] []]
        (PyVal.str (mkTemplate [Chunk.lit "a", Chunk.ref "x", Chunk.ref "q", Chunk.lit "b"])) =
      PRes.ok (PyVal.str "a5\x7bq\x7db") := by
  constructor
  · exact claim_C6.1 [ScopeData.mk [("x", PyVal.int 5)] []] "x" (PyVal.int 5)
      (by decide) (by decide) rfl rfl
  · have h := claim_C6.2 [ScopeData.mk [("x", PyVal.int 5)] []]
      [Chunk.lit "a", Chunk.ref "x", Chunk.ref "q", Chunk.lit "b"]
      (by intro ch hch
          simp only [List.mem_cons, List.not_mem_nil, or_false] at hch
          rcases hch with h | h | h | h <;> subst h <;> constructor <;> decide)
      (by intro x hx
          simp only [List.mem_cons, List.not_mem_nil, or_false] at hx
          rcases hx with h | h | h | h
          · exact absurd h (by intro hc; cases hc)
          · exact ⟨PyVal.int 5, by injection h with h; subst h; rfl⟩
          · exact ⟨PyVal.none, by injection h with h; subst h; rfl⟩
          · exact absurd h (by intro hc; cases hc))
      (by intro x; simp)
    exact h.trans (by rfl)

/-- Counterexample to claim C5 as stated: with the condition being the
unresolvable placeholder `\x7bundefined_var\x7d`, the engine runs the
then-branch, not the else-branch — the unresolved reference degenerates
to a non-empty literal string, which `_is_truthy` classifies as true. -/
theorem claim_C5_counterexample :
    (match engineExecute condEnv 10 with
     | RunOut.res _ st => st.rootVars.lookup "branch"
     | _ => Option.none) = Option.some (PyVal.str "then-ran") ∧
    (match engineExecute condEnv 10 with
     | RunOut.res _ st => st.rootVars.lookup "branch"
     | _ => Option.none) ≠ Option.some (PyVal.str "else-ran") := by
  constructor
  · decide
  · decide

/-- Claim C5 as amended: a conditional whose `if` expression is a
placeholder that does not resolve is treated as TRUTHY (the unresolved
reference remains the literal string `\x7bX\x7d`, which the
string-truthiness rule classifies as true because it is none of
`"false"`, `"no"`, `"0"`, `""`), so the then-branch is executed and the
else-branch is not. -/
theorem claim_C5_amended (env : EngineEnv) (fuel : Nat) (st : EngineState)
    (X : String) (thenS elseS : List Step)
    (h1 : X.data ≠ []) (h2 : '}' ∉ X.data)
    (hg : ctxGet (chainOf st) X = PRes.ok PyVal.none) :
    bStepF env (fuel + 1)
      (Step.cond (Option.some (PyVal.str ("\x7b" ++ X ++ "\x7d"))) thenS elseS) st =
      bStepsF env fuel 0 thenS st := by
  have hhead : ("\x7b" ++ X ++ "\x7d").data.head? = Option.some '{' := by
    rw [brace_wrap_data]
    rfl
  show (match ctxResolve (chainOf st) (PyVal.str ("\x7b" ++ X ++ "\x7d")) with
    | PRes.exn ty msg => (st, Outcome.exc ty msg)
    | PRes.hang => (st, Outcome.hang)
    | PRes.ok condition =>
        if isTruthy condition then bStepsF env fuel 0 thenS st
        else if elseS.isEmpty then (st, Outcome.ok)
        else bStepsF env fuel 0 elseS st) = bStepsF env fuel 0 thenS st
  rw [resolve_unresolved (chainOf st) X h1 h2 hg]
  show (if isTruthy (PyVal.str ("\x7b" ++ X ++ "\x7d")) then bStepsF env fuel 0 thenS st
    else _) = bStepsF env fuel 0 thenS st
  rw [isTruthy_of_head_brace _ hhead]
  rfl

/-- Witness for the amended C5 at a concrete instance. -/
theorem claim_C5_amended_witness :
    bStepF condEnv 5
      (Step.cond (Option.some (PyVal.str ("\x7b" ++ "nope" ++ "\x7d")))
        [Step.call "t" [] []] [Step.call "t" [] []])
      (mkInitState condEnv (freshRunState "")) =
      bStepsF condEnv 4 0 [Step.call "t" [] []]
        (mkInitState condEnv (freshRunState "")) :=
  claim_C5_amended condEnv 4 (mkInitState condEnv (freshRunState "")) "nope"
    [Step.call "t" [] []] [Step.call "t" [] []] (by decide) (by decide) rfl

/-- Claim C1 evaluated at a failing input: after a successful run in
which a component wrote return-destination data, the root context's
accumulated returns are non-empty, yet the `ExecutionResult` the engine
produces consists of exactly `success`, per-sink `outputs`, `errors`,
`duration_seconds`, `stats` and `traces` — the accumulated returns are
read by neither `execute` path and appear in no result field. -/
theorem claim_C1_returns_dropped :
    (match engineExecute returnsEnv 10 with
     | RunOut.res r st =>
        (r.success, r.outputs, r.errors, r.durationSeconds, r.stats, r.traces, st.returnsAcc)
     | _ => (false, [], [], 0, Stats.mk 0 0 0, [], [])) =
    (true, [("k", [("count", PyVal.int 1)])], [], 0, Stats.mk 1 1 0, [],
     [("payload", PyVal.str "DATA")]) := by
  decide

/-- Claim C2 evaluated at its failing inputs: under `on_error="retry"`
the failing component is executed exactly once (no retries), the error
is silently discarded (`errors` is empty, so no record with
`recovery_action="retried"` exists) and the run reports success; under
`on_error="default"` the step's output variable is never set (no
`default_value` substitution, no `used_default` record) and the run also
reports success.  `_execute_steps` only implements the `stop` and `skip`
protocols. -/
theorem claim_C2_no_retry_no_default :
    ((match engineExecute retryEnv 10 with
      | RunOut.res r st => (r.success, r.errors, st.executed)
      | _ => (false, [], [])) = (true, [], ["f"])) ∧
    ((match engineExecute defaultEnv 10 with
      | RunOut.res r st => (r.success, r.errors, st.rootVars.lookup "v", st.executed)
      | _ => (false, [], Option.some PyVal.none, [])) =
      (true, [], Option.none, ["f"])) := by
  constructor
  · decide
  · decide

theorem stSet_ghost (n : String) (v : PyVal) (st : EngineState) :
    (stSet n v st).executed = st.executed ∧ (stSet n v st).eventLog = st.eventLog := by
  unfold stSet
  cases st.frames <;> exact ⟨rfl, rfl⟩

theorem applyOutputsMapping_executed :
    ∀ (mapping : List (String × String)) (outs : List (String × PyVal)) (st : EngineState),
    (applyOutputsMapping mapping outs st).executed = st.executed := by
  intro mapping
  induction mapping with
  | nil => intro outs st; rfl
  | cons kv rest ih =>
    intro outs st
    show (applyOutputsMapping rest outs
      (match outs.lookup kv.1 with
       | Option.some v => stSet kv.2 v st
       | Option.none => st)).executed = st.executed
    cases outs.lookup kv.1 with
    | none => exact ih outs st
    | some v => exact (ih outs (stSet kv.2 v st)).trans (stSet_ghost kv.2 v st).1

theorem applyOutputsMapping_eventLog :
    ∀ (mapping : List (String × String)) (outs : List (String × PyVal)) (st : EngineState),
    (applyOutputsMapping mapping outs st).eventLog = st.eventLog := by
  intro mapping
  induction mapping with
  | nil => intro outs st; rfl
  | cons kv rest ih =>
    intro outs st
    show (applyOutputsMapping rest outs
      (match outs.lookup kv.1 with
       | Option.some v => stSet kv.2 v st
       | Option.none => st)).eventLog = st.eventLog
    cases outs.lookup kv.1 with
    | none => exact ih outs st
    | some v => exact (ih outs (stSet kv.2 v st)).trans (stSet_ghost kv.2 v st).2

/-- The cache-hit branch of `PersistentEngine._execute_call`: when the
call fingerprint is in the in-memory completed-calls cache, the step
reduces to applying the cached outputs to the mapping and the root
cache (plus the stats bump) — no validation, no execution, no event. -/
theorem execCallPers_hit (env : EngineEnv) (compId : String) (component : Component)
    (spec : List (String × PyVal)) (mapping : List (String × String))
    (st : EngineState) (inputs cached : List (String × PyVal))
    (hc : env.components.lookup compId = Option.some component)
    (hr : resolveInputs (chainOf st) spec = PRes.ok inputs)
    (hh : st.runState.completedCalls.lookup (computeCallHash compId inputs) =
      Option.some cached) :
    execCallPers env compId spec mapping st =
      (bumpComponents (stSetCompOutput compId cached (applyOutputsMapping mapping cached st)),
        Outcome.ok) := by
  simp only [execCallPers, hc, hr, hh]

/-- Claim C9: in any persistent execution, a call step whose computed
call fingerprint is already in the in-memory completed-calls cache —
also during a fresh, non-resumed run, e.g. after an earlier call step
with the same component and byte-equal serialized inputs — never invokes
the component's `execute`: the cached outputs are applied to the step's
outputs mapping and the root output cache, the step succeeds, the ghost
execution log is unchanged, and no `call_start`/`call_complete` (or any
other) event is logged. -/
theorem claim_C9 (env : EngineEnv) (compId : String) (component : Component)
    (spec : List (String × PyVal)) (mapping : List (String × String))
    (st : EngineState) (inputs cached : List (String × PyVal))
    (hc : env.components.lookup compId = Option.some component)
    (hr : resolveInputs (chainOf st) spec = PRes.ok inputs)
    (hh : st.runState.completedCalls.lookup (computeCallHash compId inputs) =
      Option.some cached) :
    execCallPers env compId spec mapping st =
      (bumpComponents (stSetCompOutput compId cached (applyOutputsMapping mapping cached st)),
        Outcome.ok) ∧
    (execCallPers env compId spec mapping st).1.executed = st.executed ∧
    (execCallPers env compId spec mapping st).1.eventLog = st.eventLog := by
  have he := execCallPers_hit env compId component spec mapping st inputs cached hc hr hh
  refine ⟨he, ?_, ?_⟩
  · rw [he]
    exact applyOutputsMapping_executed mapping cached st
  · rw [he]
    exact applyOutputsMapping_eventLog mapping cached st

/-- Witness for C9: the concrete cache-hit call on `hitState` applies
the cached outputs and leaves the execution and event logs unchanged. -/
theorem claim_C9_witness :
    execCallPers hitEnv "t" [] [("y", "out")] hitState =
      (bumpComponents (stSetCompOutput "t" [("y", PyVal.int 7)]
        (applyOutputsMapping [("y", "out")] [("y", PyVal.int 7)] hitState)), Outcome.ok) ∧
    (execCallPers hitEnv "t" [] [("y", "out")] hitState).1.executed = hitState.executed ∧
    (execCallPers hitEnv "t" [] [("y", "out")] hitState).1.eventLog = hitState.eventLog :=
  claim_C9 hitEnv "t" echoComp [] [("y", "out")] hitState [] [("y", PyVal.int 7)]
    rfl rfl rfl

theorem lookup_listSet_self {α : Type} (k : String) (v : α) :
    ∀ (l : List (String × α)), ((listSet k v l).lookup k) = Option.some v := by
  intro l
  induction l with
  | nil => simp [listSet, List.lookup]
  | cons kv rest ih =>
    by_cases hk : kv.1 = k
    · simp [listSet, hk, List.lookup]
    · have hb : (k == kv.1) = false := by
        rw [beq_eq_false_iff_ne]
        exact Ne.symm hk
      simp [listSet, hk, List.lookup, hb, ih]

theorem lookup_listSet_ne {α : Type} (k h : String) (v : α) (hne : h ≠ k) :
    ∀ (l : List (String × α)), ((listSet k v l).lookup h) = l.lookup h := by
  intro l
  have hb : (h == k) = false := by
    rw [beq_eq_false_iff_ne]
    exact hne
  induction l with
  | nil => simp [listSet, List.lookup, hb]
  | cons kv rest ih =>
    by_cases hk : kv.1 = k
    · subst hk
      simp [listSet, List.lookup, hb]
    · simp [listSet, hk, List.lookup, ih]

theorem applyEvent_calls_mono (h : String) (s : RunState) (e : Event)
    (hs : (s.completedCalls.lookup h).isSome = true) :
    (((applyEvent s e).completedCalls).lookup h).isSome = true := by
  cases e with
  | runStart a b => exact hs
  | callStart a hh =>
      by_cases hhe : hh = ""
      · simp only [applyEvent]; rw [if_pos hhe]; exact hs
      · simp only [applyEvent]; rw [if_neg hhe]; exact hs
  | callComplete a hh outs =>
      by_cases hhe : hh = ""
      · simp only [applyEvent]; rw [if_pos hhe]; exact hs
      · simp only [applyEvent]
        rw [if_neg hhe]
        by_cases hk : h = hh
        · subst hk
          rw [lookup_listSet_self]
          rfl
        · rw [lookup_listSet_ne _ _ _ hk]
          exact hs
  | iterationStart a b c => exact hs
  | iterationComplete k =>
      by_cases hke : k = ""
      · simp only [applyEvent]; rw [if_pos hke]; exact hs
      · simp only [applyEvent]; rw [if_neg hke]; exact hs
  | runComplete a b => exact hs

theorem foldl_loadStep_calls_mono (h : String) :
    ∀ (lines : List (Option Event)) (p : RunState × Nat),
    ((p.1.completedCalls.lookup h).isSome = true) →
    ((lines.foldl loadStep p).1.completedCalls.lookup h).isSome = true := by
  intro lines
  induction lines with
  | nil => intro p hp; exact hp
  | cons l ls ih =>
    intro p hp
    show ((ls.foldl loadStep (loadStep p l)).1.completedCalls.lookup h).isSome = true
    cases l with
    | none => exact ih p hp
    | some e => exact ih (applyEvent p.1 e, p.2 + 1) (applyEvent_calls_mono h p.1 e hp)

theorem foldl_loadStep_calls_mem (c h : String) (outs : List (String × PyVal))
    (hne : h ≠ "") :
    ∀ (lines : List (Option Event)) (p : RunState × Nat),
    Option.some (Event.callComplete c h outs) ∈ lines →
    ((lines.foldl loadStep p).1.completedCalls.lookup h).isSome = true := by
  intro lines
  induction lines with
  | nil => intro p hmem; cases hmem
  | cons l ls ih =>
    intro p hmem
    show ((ls.foldl loadStep (loadStep p l)).1.completedCalls.lookup h).isSome = true
    rcases List.mem_cons.mp hmem with hl | hl
    · subst hl
      apply foldl_loadStep_calls_mono
      show (((applyEvent p.1 (Event.callComplete c h outs)).completedCalls).lookup
        h).isSome = true
      simp only [applyEvent]
      rw [if_neg hne]
      rw [lookup_listSet_self]
      rfl
    · exact ih (loadStep p l) hl

/-- Claim C3: (1) a call fingerprint recorded by a `call_complete` event
of the state file is present in the completed-calls cache rebuilt on
resume; (2) a call step whose fingerprint is cached is not re-executed —
the cached outputs are applied to the outputs mapping and the root
cache, with nothing executed and nothing logged; (3) a loop iteration
whose key — built from the loop path with the current segment already
pushed, *before* any child scope exists — is in `completed_iterations`
is skipped entirely: the state is untouched and iteration moves to the
next item. -/
theorem claim_C3 :
    (∀ (runId : String) (lines : List (Option Event)) (c h : String)
        (outs : List (String × PyVal)),
        Option.some (Event.callComplete c h outs) ∈ lines → h ≠ "" →
        ((loadEvents runId lines).completedCalls.lookup h).isSome = true) ∧
    (∀ (env : EngineEnv) (compId : String) (component : Component)
        (spec : List (String × PyVal)) (mapping : List (String × String))
        (st : EngineState) (inputs cached : List (String × PyVal)),
        env.components.lookup compId = Option.some component →
        resolveInputs (chainOf st) spec = PRes.ok inputs →
        st.runState.completedCalls.lookup (computeCallHash compId inputs) =
          Option.some cached →
        execCallPers env compId spec mapping st =
          (bumpComponents (stSetCompOutput compId cached
            (applyOutputsMapping mapping cached st)), Outcome.ok) ∧
        (execCallPers env compId spec mapping st).1.executed = st.executed ∧
        (execCallPers env compId spec mapping st).1.eventLog = st.eventLog) ∧
    (∀ (env : EngineEnv) (fuel : Nat) (loopVar : String) (ixv : Option String)
        (inner : List Step) (item : PyVal) (rest : List PyVal) (i : Nat)
        (st : EngineState),
        st.runState.completedIterations.contains
          (getIterationKey (st.loopPath ++ [iterSeg loopVar i item]) loopVar item i) = true →
        pItersF env (fuel + 1) loopVar ixv inner (item :: rest) i st =
          pItersF env fuel loopVar ixv inner rest (i + 1) st) := by
  refine ⟨?_, ?_, ?_⟩
  · intro runId lines c h outs hmem hne
    exact foldl_loadStep_calls_mem c h outs hne lines (freshRunState runId, 0) hmem
  · intro env compId component spec mapping st inputs cached hc hr hh
    have he := execCallPers_hit env compId component spec mapping st inputs cached hc hr hh
    refine ⟨he, ?_, ?_⟩
    · rw [he]
      exact applyOutputsMapping_executed mapping cached st
    · rw [he]
      exact applyOutputsMapping_eventLog mapping cached st
  · intro env fuel loopVar ixv inner item rest i st hmem
    simp only [pItersF, hmem, if_true]
    rw [List.dropLast_concat]

/-- Witness for C3 at concrete inputs: a `call_complete` line of a state
file lands in the rebuilt cache; the concrete cache-hit call on
`hitState` leaves everything but the applied outputs unchanged; the
concrete completed iteration on `skipState` is skipped. -/
theorem claim_C3_witness :
    (((loadEvents "r" [Option.some (Event.callComplete "c" "h1" [("a", PyVal.int 1)])]
        ).completedCalls.lookup "h1").isSome = true) ∧
    (execCallPers hitEnv "t" [] [("y", "out")] hitState =
      (bumpComponents (stSetCompOutput "t" [("y", PyVal.int 7)]
        (applyOutputsMapping [("y", "out")] [("y", PyVal.int 7)] hitState)), Outcome.ok)) ∧
    (pItersF hitEnv 4 "x" Option.none [] [PyVal.str "a"] 0 skipState =
      pItersF hitEnv 3 "x" Option.none [] [] 1 skipState) :=
  ⟨claim_C3.1 "r" [Option.some (Event.callComplete "c" "h1" [("a", PyVal.int 1)])]
      "c" "h1" [("a", PyVal.int 1)] (by decide) (by decide),
   (claim_C3.2.1 hitEnv "t" echoComp [] [("y", "out")] hitState [] [("y", PyVal.int 7)]
      rfl rfl rfl).1,
   claim_C3.2.2 hitEnv 3 "x" Option.none [] (PyVal.str "a") [] 0 skipState (by decide)⟩

theorem digitChar_val (d : Nat) (h : d < 10) : (Nat.digitChar d).toNat - 48 = d := by
  interval_cases d <;> rfl

theorem toDigitsCore_shift :
    ∀ (f n : Nat) (acc : List Char),
    Nat.toDigitsCore 10 f n acc = Nat.toDigitsCore 10 f n [] ++ acc := by
  intro f
  induction f with
  | zero => intro n acc; rfl
  | succ f ih =>
    intro n acc
    simp only [Nat.toDigitsCore]
    by_cases h : n / 10 = 0
    · rw [if_pos h, if_pos h]
      rfl
    · rw [if_neg h, if_neg h]
      rw [ih (n / 10) (Nat.digitChar (n % 10) :: acc), ih (n / 10) [Nat.digitChar (n % 10)]]
      simp

theorem digitsVal_append_one (l : List Char) (c : Char) :
    digitsVal (l ++ [c]) = digitsVal l * 10 + (c.toNat - 48) := by
  simp [digitsVal, List.foldl_append]

theorem digitsVal_toDigitsCore :
    ∀ (n : Nat), ∀ (f : Nat), n < f → digitsVal (Nat.toDigitsCore 10 f n []) = n := by
  intro n
  induction n using Nat.strong_induction_on with
  | _ n ih =>
    intro f hf
    cases f with
    | zero => exact absurd hf (Nat.not_lt_zero n)
    | succ f =>
      simp only [Nat.toDigitsCore]
      by_cases h : n / 10 = 0
      · rw [if_pos h]
        have hn : n < 10 := by omega
        have hmod : n % 10 = n := Nat.mod_eq_of_lt hn
        simp [digitsVal, hmod, digitChar_val n hn]
      · rw [if_neg h]
        rw [toDigitsCore_shift]
        rw [digitsVal_append_one]
        have h10 : n / 10 < n := Nat.div_lt_self (by omega) (by norm_num)
        have hf2 : n / 10 < f := by omega
        rw [ih (n / 10) h10 f hf2]
        rw [digitChar_val (n % 10) (Nat.mod_lt n (by norm_num))]
        omega

theorem repr_inj_nat (m n : Nat) (h : Nat.repr m = Nat.repr n) : m = n := by
  have hd : Nat.toDigits 10 m = Nat.toDigits 10 n := by
    have h2 := congrArg String.data h
    simpa [Nat.repr, List.asString] using h2
  have hm : digitsVal (Nat.toDigits 10 m) = m :=
    digitsVal_toDigitsCore m (m + 1) (Nat.lt_succ_self m)
  have hn : digitsVal (Nat.toDigits 10 n) = n :=
    digitsVal_toDigitsCore n (n + 1) (Nat.lt_succ_self n)
  rw [← hm, ← hn, hd]

theorem mem_toDigitsCore :
    ∀ (f n : Nat) (acc : List Char) (c : Char),
    c ∈ Nat.toDigitsCore 10 f n acc →
    c ∈ acc ∨ ∃ d, d < 10 ∧ c = Nat.digitChar d := by
  intro f
  induction f with
  | zero => intro n acc c hc; exact Or.inl hc
  | succ f ih =>
    intro n acc c hc
    simp only [Nat.toDigitsCore] at hc
    by_cases h : n / 10 = 0
    · rw [if_pos h] at hc
      rcases List.mem_cons.mp hc with h1 | h1
      · exact Or.inr ⟨n % 10, Nat.mod_lt n (by norm_num), h1⟩
      · exact Or.inl h1
    · rw [if_neg h] at hc
      rcases ih (n / 10) (Nat.digitChar (n % 10) :: acc) c hc with h1 | h1
      · rcases List.mem_cons.mp h1 with h2 | h2
        · exact Or.inr ⟨n % 10, Nat.mod_lt n (by norm_num), h2⟩
        · exact Or.inl h2
      · exact Or.inr h1

theorem rbracket_not_mem_repr (n : Nat) : ']' ∉ (Nat.repr n).data := by
  intro hc
  have hc2 : ']' ∈ Nat.toDigits 10 n := by
    simpa [Nat.repr, List.asString] using hc
  rcases mem_toDigitsCore (n + 1) n [] ']' hc2 with h1 | h1
  · cases h1
  · rcases h1 with ⟨d, hd, he⟩
    interval_cases d <;> exact absurd he (by decide)

theorem go_concat (s : String) : ∀ (as : List String) (acc : String),
    (String.intercalate.go acc "/" (as ++ [s])).data =
      acc.data ++ '/' :: (joinPrefix as ++ s.data) := by
  intro as
  induction as with
  | nil =>
    intro acc
    show ((acc ++ "/" ++ s).data) = acc.data ++ '/' :: (joinPrefix [] ++ s.data)
    simp [String.data_append, joinPrefix]
  | cons a as2 ih =>
    intro acc
    show (String.intercalate.go (acc ++ "/" ++ a) "/" (as2 ++ [s])).data = _
    rw [ih]
    simp [String.data_append, joinPrefix]

theorem intercalate_concat_data (P : List String) (s : String) :
    (String.intercalate "/" (P ++ [s])).data = joinPrefix P ++ s.data := by
  cases P with
  | nil =>
    show (String.intercalate.go s "/" []).data = joinPrefix [] ++ s.data
    simp [String.intercalate.go, joinPrefix]
  | cons p ps =>
    show (String.intercalate.go p "/" (ps ++ [s])).data = _
    rw [go_concat]
    simp [joinPrefix]

theorem sep_append_inj (sep : Char) :
    ∀ (a b x y : List Char), sep ∉ a → sep ∉ b →
    a ++ sep :: x = b ++ sep :: y → a = b ∧ x = y := by
  intro a
  induction a with
  | nil =>
    intro b x y ha hb h
    cases b with
    | nil =>
      simp at h
      exact ⟨rfl, h⟩
    | cons c bs =>
      simp at h
      exact absurd (h.1 ▸ List.mem_cons_self c bs) (fun hx => hb (h.1 ▸ hx))
  | cons c as ih =>
    intro b x y ha hb h
    cases b with
    | nil =>
      simp at h
      exact absurd (h.1 ▸ List.mem_cons_self c as) (fun hx => ha (h.1 ▸ List.mem_cons_self c as))
    | cons d bs =>
      simp at h
      have h1 := ih bs x y (fun hx => ha (List.mem_cons_of_mem c hx))
        (fun hx => hb (List.mem_cons_of_mem d hx)) h.2
      exact ⟨by rw [h.1, h1.1], h1.2⟩

theorem iterSeg_data (v : String) (i : Nat) (t : PyVal) :
    (iterSeg v i t).data = v.data ++ '[' :: ((Nat.repr i).data ++ ']' :: ':' :: (pystr t).data) := by
  show (v ++ "[" ++ toString i ++ "]:" ++ pystr t).data = _
  simp [String.data_append]
  rfl

theorem getIterationKey_data (P : List String) (v : String) (t : PyVal) (i : Nat) :
    (getIterationKey (P ++ [iterSeg v i t]) v t i).data =
      joinPrefix P ++ ((iterSeg v i t).data ++ '/' :: (iterSeg v i t).data) := by
  show (String.intercalate "/" (P ++ [iterSeg v i t]) ++ "/" ++ iterSeg v i t).data = _
  simp [String.data_append, intercalate_concat_data]

theorem getIterationKey_inj (P : List String) (v : String) (i j : Nat) (t u : PyVal)
    (hne : i ≠ j) :
    getIterationKey (P ++ [iterSeg v i t]) v t i ≠
      getIterationKey (P ++ [iterSeg v j u]) v u j := by
  intro h
  have hd := congrArg String.data h
  rw [getIterationKey_data, getIterationKey_data] at hd
  have hd2 := List.append_cancel_left hd
  have hlen : (iterSeg v i t).data.length = (iterSeg v j u).data.length := by
    have h2 := congrArg List.length hd2
    rw [List.length_append, List.length_append, List.length_cons, List.length_cons] at h2
    omega
  have hseg : (iterSeg v i t).data = (iterSeg v j u).data := (List.append_inj hd2 hlen).1
  rw [iterSeg_data, iterSeg_data] at hseg
  have h3 := List.append_cancel_left hseg
  have h4 : (Nat.repr i).data ++ ']' :: (':' :: (pystr t).data) =
      (Nat.repr j).data ++ ']' :: (':' :: (pystr u).data) := by
    injection h3
  have h5 := sep_append_inj ']' _ _ _ _ (rbracket_not_mem_repr i) (rbracket_not_mem_repr j) h4
  have h6 : Nat.repr i = Nat.repr j := congrArg String.mk h5.1
  exact hne (repr_inj_nat i j h6)

theorem stApplyWrites_eventLog :
    ∀ (writes : List (List (String × PyVal))) (st : EngineState),
    (stApplyWrites writes st).eventLog = st.eventLog := by
  intro writes
  induction writes with
  | nil => intro st; rfl
  | cons w rest ih =>
    intro st
    show (stApplyWrites rest (stWriteReturn w st)).eventLog = st.eventLog
    exact ih (stWriteReturn w st)

theorem execSource_eventLog (env : EngineEnv) (sid : String) (st : EngineState) :
    (execSource env sid st).1.eventLog = st.eventLog := by
  unfold execSource
  cases hc : env.components.lookup sid with
  | none => rfl
  | some component =>
    cases hex : component.execute [] with
    | ok p =>
      cases p with
      | mk outs writes =>
        simp only [hex]
        exact stApplyWrites_eventLog writes _
    | exn ty msg => simp only [hex]
    | hang => simp only [hex]

theorem execSinkStep_eventLog (env : EngineEnv) (sid : String)
    (spec : List (String × PyVal)) (st : EngineState) :
    (execSinkStep env sid spec st).1.eventLog = st.eventLog := by
  unfold execSinkStep
  cases hc : env.components.lookup sid with
  | none => rfl
  | some component =>
    cases hres : resolveInputs (chainOf st) spec with
    | exn ty msg => simp only [hres]
    | hang => simp only [hres]
    | ok inputs =>
      simp only [hres]
      cases hex : component.execute inputs with
      | ok p =>
        cases p with
        | mk outs writes =>
          simp only [hex]
          exact stApplyWrites_eventLog writes _
      | exn ty msg => simp only [hex]
      | hang => simp only [hex]

theorem logOk_of_eq {st st2 : EngineState} (h : st2.eventLog = st.eventLog) :
    logOkFrom st st2 :=
  fun e he => Or.inl (h ▸ he)

theorem logOk_trans {st1 st2 st3 : EngineState}
    (h1 : logOkFrom st1 st2) (h2 : logOkFrom st2 st3) : logOkFrom st1 st3 := by
  intro e he
  rcases h2 e he with h | h
  · exact h1 e h
  · exact Or.inr h

theorem mem_append_one {e x : Event} {l : List Event} (h : e ∈ l ++ [x]) :
    e ∈ l ∨ e = x := by
  rcases List.mem_append.mp h with h1 | h1
  · exact Or.inl h1
  · exact Or.inr (List.mem_singleton.mp h1)

theorem execCallPers_logOk (env : EngineEnv) (cid : String)
    (spec : List (String × PyVal)) (mapping : List (String × String))
    (st : EngineState) : logOkFrom st (execCallPers env cid spec mapping st).1 := by
  unfold execCallPers
  cases hc : env.components.lookup cid with
  | none => exact logOk_of_eq rfl
  | some component =>
    cases hres : resolveInputs (chainOf st) spec with
    | exn ty msg => exact logOk_of_eq (by simp only [hres])
    | hang => exact logOk_of_eq (by simp only [hres])
    | ok inputs =>
      cases hcc : st.runState.completedCalls.lookup (computeCallHash cid inputs) with
      | some cached =>
        refine logOk_of_eq ?_
        simp only [hres, hcc]
        exact applyOutputsMapping_eventLog mapping cached st
      | none =>
        simp only [hres, hcc]
        by_cases hval : ¬ component.validateOk inputs
        · rw [if_pos hval]
          intro e he
          rcases mem_append_one he with h1 | h1
          · exact Or.inl h1
          · exact Or.inr (h1 ▸ trivial)
        · rw [if_neg hval]
          cases hex : component.execute inputs with
          | ok p =>
            cases p with
            | mk outs writes =>
              simp only [hex]
              intro e he
              simp only [bumpComponents, stSetCompOutput, stLogEvent,
                applyOutputsMapping_eventLog, stApplyWrites_eventLog] at he
              rcases mem_append_one he with h1 | h1
              · rcases mem_append_one h1 with h2 | h2
                · exact Or.inl h2
                · exact Or.inr (h2 ▸ trivial)
              · exact Or.inr (h1 ▸ trivial)
          | exn ty msg =>
            simp only [hex]
            intro e he
            rcases mem_append_one he with h1 | h1
            · exact Or.inl h1
            · exact Or.inr (h1 ▸ trivial)
          | hang =>
            simp only [hex]
            intro e he
            rcases mem_append_one he with h1 | h1
            · exact Or.inl h1
            · exact Or.inr (h1 ▸ trivial)

theorem stepF_result_logOk (env : EngineEnv) (f : Nat)
    (ihStep : ∀ (step : Step) (st : EngineState), logOkFrom st (pStepF env f step st).1)
    {step : Step} {stIn st2 : EngineState} {out : Outcome}
    (h : pStepF env f step stIn = (st2, out)) : logOkFrom stIn st2 := by
  have h2 := ihStep step stIn
  rw [h] at h2
  exact h2

theorem stepsF_result_logOk (env : EngineEnv) (f : Nat)
    (ihSteps : ∀ (i : Nat) (steps : List Step) (st : EngineState),
      logOkFrom st (pStepsF env f i steps st).1)
    {i : Nat} {steps : List Step} {stIn st2 : EngineState} {out : Outcome}
    (h : pStepsF env f i steps stIn = (st2, out)) : logOkFrom stIn st2 := by
  have h2 := ihSteps i steps stIn
  rw [h] at h2
  exact h2

theorem pFam_logOk (env : EngineEnv) :
    ∀ fuel : Nat,
    (∀ (i : Nat) (steps : List Step) (st : EngineState),
      logOkFrom st (pStepsF env fuel i steps st).1) ∧
    (∀ (step : Step) (st : EngineState),
      logOkFrom st (pStepF env fuel step st).1) ∧
    (∀ (over : String) (asv ixv : Option String) (inner : List Step) (st : EngineState),
      logOkFrom st (pLoopF env fuel over asv ixv inner st).1) ∧
    (∀ (loopVar : String) (ixv : Option String) (inner : List Step) (items : List PyVal)
        (i : Nat) (st : EngineState),
      logOkFrom st (pItersF env fuel loopVar ixv inner items i st).1) := by
  intro fuel
  induction fuel with
  | zero =>
    refine ⟨?_, ?_, ?_, ?_⟩ <;> intros <;> exact fun e he => Or.inl he
  | succ f ih =>
    obtain ⟨ihSteps, ihStep, ihLoop, ihIters⟩ := ih
    refine ⟨?_, ?_, ?_, ?_⟩
    · intro i steps st
      cases steps with
      | nil => exact logOk_of_eq rfl
      | cons step rest =>
        cases hst : pStepF env f step
            { st with stats := { st.stats with stepsExecuted := st.stats.stepsExecuted + 1 } } with
        | mk st2 out =>
          have hstep := stepF_result_logOk env f ihStep hst
          cases out with
          | ok =>
            simp only [pStepsF, hst]
            exact logOk_trans hstep (ihSteps (i + 1) rest st2)
          | exc ty msg =>
            simp only [pStepsF, hst]
            by_cases hstop : env.errorProtocol.onError = "stop"
            · rw [if_pos hstop]
              exact hstep
            · rw [if_neg hstop]
              by_cases hskip : env.errorProtocol.onError = "skip"
              · rw [if_pos hskip]
                refine logOk_trans hstep ?_
                exact ihSteps (i + 1) rest _
              · rw [if_neg hskip]
                exact logOk_trans hstep (ihSteps (i + 1) rest st2)
          | hang =>
            simp only [pStepsF, hst]
            exact hstep
          | timeout =>
            simp only [pStepsF, hst]
            exact hstep
    · intro step st
      cases step with
      | source sid => exact logOk_of_eq (execSource_eventLog env sid st)
      | call cid spec mapping => exact execCallPers_logOk env cid spec mapping st
      | sink sid spec => exact logOk_of_eq (execSinkStep_eventLog env sid spec st)
      | loop over asv ixv inner => exact ihLoop over asv ixv inner st
      | cond ifv thenS elseS =>
        simp only [pStepF]
        cases hres : ctxResolve (chainOf st) (ifv.getD (PyVal.str "false")) with
        | exn ty msg => simp only [hres]; exact logOk_of_eq rfl
        | hang => simp only [hres]; exact logOk_of_eq rfl
        | ok condition =>
          simp only [hres]
          by_cases htr : isTruthy condition = true
          · rw [if_pos htr]
            exact ihSteps 0 thenS st
          · rw [if_neg htr]
            by_cases hemp : elseS.isEmpty = true
            · rw [if_pos hemp]
              exact logOk_of_eq rfl
            · rw [if_neg hemp]
              exact ihSteps 0 elseS st
    · intro over asv ixv inner st
      simp only [pLoopF]
      cases hres : ctxResolve (chainOf st) (PyVal.str ("\x7b" ++ over ++ "\x7d")) with
      | exn ty msg => simp only [hres]; exact logOk_of_eq rfl
      | hang => simp only [hres]; exact logOk_of_eq rfl
      | ok collection =>
        simp only [hres]
        by_cases hn : collection.isNone = true
        · rw [if_pos hn]
          exact logOk_of_eq rfl
        · rw [if_neg hn]
          cases hit : pyIter collection with
          | none => simp only [hit]; exact logOk_of_eq rfl
          | some items => simp only [hit]; exact ihIters (asv.getD "item") ixv inner items 0 st
    · intro loopVar ixv inner items i st
      cases items with
      | nil => exact logOk_of_eq rfl
      | cons item rest =>
        simp only [pItersF]
        split
        · exact logOk_trans (fun e he => Or.inl he)
            (ihIters loopVar ixv inner rest (i + 1) _)
        · split
          · rename_i st4 heq
            refine logOk_trans ?_ (ihIters loopVar ixv inner rest (i + 1) _)
            intro e he
            rcases mem_append_one he with h1 | h1
            · rcases stepsF_result_logOk env f ihSteps heq e h1 with h3 | h3
              · rcases mem_append_one h3 with h4 | h4
                · exact Or.inl h4
                · exact Or.inr (h4 ▸ ⟨st.loopPath, item, rfl⟩)
              · exact Or.inr h3
            · exact Or.inr (h1 ▸ trivial)
          · rename_i st4 out hne heq
            intro e he
            rcases stepsF_result_logOk env f ihSteps heq e he with h3 | h3
            · rcases mem_append_one h3 with h4 | h4
              · exact Or.inl h4
              · exact Or.inr (h4 ▸ ⟨st.loopPath, item, rfl⟩)
            · exact Or.inr h3

theorem coreP_shape (env : EngineEnv) (fuel : Nat) (st0 : EngineState)
    (hlog : ∀ e ∈ st0.eventLog, eventKeyShaped e) (r : ExecutionResult) (st : EngineState)
    (h : engineExecuteCore (fun f steps s => pStepsF env f 0 steps s) env fuel st0 =
      RunOut.res r st) :
    ∀ e ∈ st.eventLog, eventKeyShaped e := by
  simp only [engineExecuteCore] at h
  by_cases hval : ¬ (validateEngine env).isEmpty
  · rw [if_pos hval] at h
    cases h
  · rw [if_neg hval] at h
    cases hrun : pStepsF env fuel 0 env.flow st0 with
    | mk stx out =>
      rw [hrun] at h
      cases out with
      | ok =>
        injection h with h1 h2
        subst h2
        intro e he
        rcases stepsF_result_logOk env fuel (pFam_logOk env fuel).1 hrun e he with h3 | h3
        · exact hlog e h3
        · exact h3
      | exc ty msg =>
        injection h with h1 h2
        subst h2
        intro e he
        rcases stepsF_result_logOk env fuel (pFam_logOk env fuel).1 hrun e he with h3 | h3
        · exact hlog e h3
        · exact h3
      | hang => cases h
      | timeout => cases h

theorem persCore_shape (env : EngineEnv) (fuel : Nat) (st0 : EngineState)
    (hlog : ∀ e ∈ st0.eventLog, eventKeyShaped e) (r : ExecutionResult) (st : EngineState)
    (h : (match engineExecuteCore (fun f steps s => pStepsF env f 0 steps s) env fuel st0 with
          | RunOut.res r2 st2 =>
              RunOut.res r2 (stLogEvent (Event.runComplete r2.success r2.errors.length) st2)
          | o => o) = RunOut.res r st) :
    ∀ e ∈ st.eventLog, eventKeyShaped e := by
  cases hcore : engineExecuteCore (fun f steps s => pStepsF env f 0 steps s) env fuel st0 with
  | res r2 st2 =>
    rw [hcore] at h
    injection h with h1 h2
    subst h2
    intro e he
    rcases mem_append_one he with h3 | h3
    · exact coreP_shape env fuel st0 hlog r2 st2 hcore e h3
    · exact h3 ▸ trivial
  | raised ty msg =>
    rw [hcore] at h
    cases h
  | hang =>
    rw [hcore] at h
    cases h
  | timeout =>
    rw [hcore] at h
    cases h

theorem runStart_log_shape (a b : String) (stb : EngineState) (hb : stb.eventLog = []) :
    ∀ e ∈ (stLogEvent (Event.runStart a b) stb).eventLog, eventKeyShaped e := by
  intro e he
  have he2 : e ∈ stb.eventLog ++ [Event.runStart a b] := he
  rcases mem_append_one he2 with h1 | h1
  · rw [hb] at h1
    cases h1
  · exact h1 ▸ trivial

theorem persExecute_shape (env : EngineEnv) (runId : String)
    (sf : Option (List (Option Event))) (fuel : Nat) (r : ExecutionResult)
    (st : EngineState) (h : persExecute env runId sf fuel = RunOut.res r st) :
    ∀ e ∈ st.eventLog, eventKeyShaped e := by
  cases sf with
  | none =>
    exact persCore_shape env fuel
      (stLogEvent (Event.runStart runId env.planName) (mkInitState env (freshRunState runId)))
      (runStart_log_shape runId env.planName _ rfl) r st h
  | some lines =>
    by_cases hres0 : ((loadEvents runId lines).totalEvents != 0) = true
    · refine persCore_shape env fuel (mkInitState env (loadEvents runId lines)) ?_ r st ?_
      · intro e he
        cases he
      · simp only [persExecute] at h
        rw [if_pos hres0] at h
        exact h
    · refine persCore_shape env fuel
        (stLogEvent (Event.runStart runId env.planName)
          (mkInitState env (loadEvents runId lines)))
        (runStart_log_shape runId env.planName _ rfl) r st ?_
      simp only [persExecute] at h
      rw [if_neg hres0] at h
      exact h

/-- Counterexample to claim C4 as stated: in a fresh persistent run of a
single top-level loop (`loop_var = "x"` over `["a", "b"]`, no enclosing
iterations), the key logged for iteration 0 is `"x[0]:a/x[0]:a"` — the
current iteration's segment appears twice, because `_execute_loop`
pushes the segment onto `_current_loop_path` before `_get_iteration_key`
joins that path and appends the segment again — and it differs from the
spec's formula `"" + "/" + "x[0]:a"` (the enclosing-path join followed
by the segment exactly once). -/
theorem claim_C4_counterexample :
    ((match persExecute envC4 "r1" Option.none 10 with
      | RunOut.res _ st => st.eventLog
      | _ => []) =
      [Event.runStart "r1" "c4-plan",
       Event.iterationStart "x[0]:a/x[0]:a" "x" 0,
       Event.iterationComplete "x[0]:a/x[0]:a",
       Event.iterationStart "x[1]:b/x[1]:b" "x" 1,
       Event.iterationComplete "x[1]:b/x[1]:b",
       Event.runComplete true 0]) ∧
    "x[0]:a/x[0]:a" ≠
      String.intercalate "/" ([] : List String) ++ "/" ++ iterSeg "x" 0 (PyVal.str "a") := by
  constructor
  · decide
  · decide

/-- Claim C4 as amended: (1) every `iteration_start` event logged by any
run of the persistent engine carries a key of the form
`intercalate "/" (path ++ [loop_var[i]:item]) ++ "/" ++ loop_var[i]:item`
— the enclosing path with the current segment already pushed, joined
with `/`, then `/` and the current segment once more, so the current
iteration contributes its segment twice, not once; (2) within a single
loop activation the keys are still pairwise distinct: two iterations of
the same loop (same pushed path prefix and loop variable) at different
indices always produce different keys, because the decimal index sits
left of the first `]` of the final segment. -/
theorem claim_C4_amended :
    (∀ (env : EngineEnv) (runId : String) (sf : Option (List (Option Event)))
        (fuel : Nat) (e : Event),
        (match persExecute env runId sf fuel with
         | RunOut.res _ st => st.eventLog.contains e
         | _ => false) = true →
        eventKeyShaped e) ∧
    (∀ (P : List String) (v : String) (i j : Nat) (t u : PyVal), i ≠ j →
        getIterationKey (P ++ [iterSeg v i t]) v t i ≠
          getIterationKey (P ++ [iterSeg v j u]) v u j) := by
  constructor
  · intro env runId sf fuel e h
    cases hpe : persExecute env runId sf fuel with
    | res r st =>
      rw [hpe] at h
      have hmem : e ∈ st.eventLog := List.mem_of_elem_eq_true h
      exact persExecute_shape env runId sf fuel r st hpe e hmem
    | raised ty msg => rw [hpe] at h; cases h
    | hang => rw [hpe] at h; cases h
    | timeout => rw [hpe] at h; cases h
  · intro P v i j t u hne
    exact getIterationKey_inj P v i j t u hne

/-- Witness for the amended C4: the concrete key logged for iteration 0
of the `envC4` run is key-shaped, and the keys of iterations 0 and 1 of
one loop differ. -/
theorem claim_C4_witness :
    eventKeyShaped (Event.iterationStart "x[0]:a/x[0]:a" "x" 0) ∧
    getIterationKey ([] ++ [iterSeg "x" 0 (PyVal.str "a")]) "x" (PyVal.str "a") 0 ≠
      getIterationKey ([] ++ [iterSeg "x" 1 (PyVal.str "b")]) "x" (PyVal.str "b") 1 :=
  ⟨claim_C4_amended.1 envC4 "r1" Option.none 10
      (Event.iterationStart "x[0]:a/x[0]:a" "x" 0) (by decide),
   claim_C4_amended.2 [] "x" 0 1 (PyVal.str "a") (PyVal.str "b") (by decide)⟩

theorem matchInputsRef_full (X : String) (h1 : X.data ≠ []) (h2 : '}' ∉ X.data) :
    matchInputsRef (("\x7b$inputs." ++ X ++ "\x7d").data) = Option.some (X, []) := by
  have hdata : ("\x7b$inputs." ++ X ++ "\x7d").data =
      inputsRefHead ++ (X.data ++ '}' :: []) := rfl
  rw [hdata]
  unfold matchInputsRef
  have htake : (inputsRefHead ++ (X.data ++ '}' :: [])).take 9 = inputsRefHead := rfl
  rw [if_pos htake]
  have hdrop : (inputsRefHead ++ (X.data ++ '}' :: [])).drop 9 = X.data ++ '}' :: [] := rfl
  rw [hdrop, findClose_append X.data [] h2]
  have hie : X.data.isEmpty = false := by
    cases hx : X.data with
    | nil => exact absurd hx h1
    | cons a b => rfl
  simp [hie]

theorem matchInputsRef_not_brace (c : Char) (r : List Char) (h : c ≠ '{') :
    matchInputsRef (c :: r) = Option.none := by
  unfold matchInputsRef
  rw [if_neg ?hne]
  case hne =>
    intro heq
    have heq3 : c :: r.take 8 = '{' :: ['$', 'i', 'n', 'p', 'u', 't', 's', '.'] := heq
    injection heq3 with hc _
    exact h hc

theorem subInputsF_cons_none (repl : String → Option String) (fuel : Nat) (c : Char)
    (r : List Char) (h : matchInputsRef (c :: r) = Option.none) :
    subInputsF repl (fuel + 1) (c :: r) = c :: subInputsF repl fuel r := by
  simp only [subInputsF]
  rw [h]

theorem subInputsF_cons_some (repl : String → Option String) (fuel : Nat) (c : Char)
    (r : List Char) (x : String) (tail : List Char)
    (h : matchInputsRef (c :: r) = Option.some (x, tail)) :
    subInputsF repl (fuel + 1) (c :: r) =
      (match repl x with
       | Option.some s => s.data
       | Option.none => inputsRefHead ++ x.data ++ ['}']) ++ subInputsF repl fuel tail := by
  simp only [subInputsF]
  rw [h]

theorem subInputs_lit_prefix (repl : String → Option String) :
    ∀ (l : List Char), '{' ∉ l → ∀ (rest : List Char) (fuel : Nat),
    subInputsF repl (l.length + fuel + 1) (l ++ rest) =
      l ++ subInputsF repl (fuel + 1) rest := by
  intro l
  induction l with
  | nil =>
    intro h rest fuel
    simp
  | cons c l2 ih =>
    intro h rest fuel
    have hc : c ≠ '{' := fun hcc => h (by rw [hcc]; exact List.mem_cons_self _ _)
    have hl2 : '{' ∉ l2 := fun hm => h (List.mem_cons_of_mem c hm)
    have hlen : (c :: l2).length + fuel + 1 = (l2.length + fuel + 1) + 1 := by
      simp [List.length_cons]
      omega
    rw [hlen, List.cons_append,
      subInputsF_cons_none repl _ _ _ (matchInputsRef_not_brace c _ hc),
      ih hl2 rest fuel, List.cons_append]

theorem subInputs_lit_all (repl : String → Option String) (l : List Char)
    (h : '{' ∉ l) (fuel : Nat) :
    subInputsF repl (l.length + fuel + 1) l = l := by
  have hpre := subInputs_lit_prefix repl l h [] fuel
  rw [List.append_nil] at hpre
  rw [hpre]
  have hnil : subInputsF repl (fuel + 1) [] = [] := by
    cases fuel <;> rfl
  rw [hnil, List.append_nil]

theorem subInputsF_at_ref (repl : String → Option String) (X : String) (tail : List Char)
    (fuel : Nat) (h1 : X.data ≠ []) (h2 : '}' ∉ X.data) :
    subInputsF repl (fuel + 1) (inputsRefHead ++ (X.data ++ '}' :: tail)) =
      (match repl X with
       | Option.some s => s.data
       | Option.none => inputsRefHead ++ X.data ++ ['}']) ++ subInputsF repl fuel tail := by
  have hm : matchInputsRef (inputsRefHead ++ (X.data ++ '}' :: tail)) =
      Option.some (X, tail) := by
    unfold matchInputsRef
    have htake : (inputsRefHead ++ (X.data ++ '}' :: tail)).take 9 = inputsRefHead := rfl
    rw [if_pos htake]
    have hdrop : (inputsRefHead ++ (X.data ++ '}' :: tail)).drop 9 = X.data ++ '}' :: tail := rfl
    rw [hdrop, findClose_append X.data tail h2]
    have hie : X.data.isEmpty = false := by
      cases hx : X.data with
      | nil => exact absurd hx h1
      | cons a b => rfl
    simp [hie]
  have hco : inputsRefHead ++ (X.data ++ '}' :: tail) =
      '{' :: (['$', 'i', 'n', 'p', 'u', 't', 's', '.'] ++ (X.data ++ '}' :: tail)) := rfl
  rw [hco] at hm ⊢
  rw [subInputsF_cons_some repl fuel '{' _ X tail hm]

theorem resolveInputRefs_full (u p : List (String × PyVal)) (X : String)
    (h1 : X.data ≠ []) (h2 : '}' ∉ X.data) :
    resolveInputRefs u p (PyVal.str ("\x7b$inputs." ++ X ++ "\x7d")) =
      (match u.lookup X with
       | Option.some v => v
       | Option.none =>
          match (getInputSchema p).lookup X with
          | Option.some spec =>
              if spec.default.isNone then PyVal.str ("\x7b$inputs." ++ X ++ "\x7d")
              else spec.default
          | Option.none => PyVal.str ("\x7b$inputs." ++ X ++ "\x7d")) := by
  simp only [resolveInputRefs]
  rw [matchInputsRef_full X h1 h2]

theorem resolveInputRefs_partial (u p : List (String × PyVal)) (pre X post : String)
    (v : PyVal)
    (hpre1 : pre.data ≠ []) (hpre2 : '{' ∉ pre.data)
    (h1 : X.data ≠ []) (h2 : '}' ∉ X.data)
    (hpost : '{' ∉ post.data)
    (hv : u.lookup X = Option.some v) :
    resolveInputRefs u p (PyVal.str (pre ++ "\x7b$inputs." ++ X ++ "\x7d" ++ post)) =
      PyVal.str (pre ++ pystr v ++ post) := by
  have hdata : (pre ++ "\x7b$inputs." ++ X ++ "\x7d" ++ post).data =
      pre.data ++ (inputsRefHead ++ (X.data ++ '}' :: post.data)) := by
    have hH : ("\x7b$inputs." : String).data = inputsRefHead := rfl
    have hB : ("\x7d" : String).data = ['}'] := rfl
    simp [String.data_append, hH, hB, inputsRefHead]
  simp only [resolveInputRefs]
  rw [hdata]
  cases hpd : pre.data with
  | nil => exact absurd hpd hpre1
  | cons c pr2 =>
    have hc : c ≠ '{' := fun hcc => hpre2 (by rw [hpd, hcc]; exact List.mem_cons_self _ _)
    rw [List.cons_append, matchInputsRef_not_brace c _ hc]
    have hrepl : inputsRepl u (getInputSchema p) X = Option.some (pystr v) := by
      simp [inputsRepl, hv]
    have hpre2b : '{' ∉ c :: pr2 := hpd ▸ hpre2
    have hlen : (c :: pr2 ++ (inputsRefHead ++ (X.data ++ '}' :: post.data))).length + 1 =
        (c :: pr2).length + (inputsRefHead ++ (X.data ++ '}' :: post.data)).length + 1 := by
      rw [List.length_append]
    rw [← List.cons_append, hlen,
      subInputs_lit_prefix (inputsRepl u (getInputSchema p)) (c :: pr2) hpre2b _ _]
    have hlen2 : (inputsRefHead ++ (X.data ++ '}' :: post.data)).length =
        (post.data.length + (X.data.length + 9)) + 1 := by
      simp [List.length_append, inputsRefHead]
      omega
    rw [hlen2,
      subInputsF_at_ref (inputsRepl u (getInputSchema p)) X post.data _ h1 h2, hrepl]
    rw [subInputs_lit_all (inputsRepl u (getInputSchema p)) post.data hpost _]
    have hfin : c :: pr2 ++ ((pystr v).data ++ post.data) =
        (pre ++ pystr v ++ post).data := by
      rw [← hpd]
      simp [String.data_append]
    rw [hfin]

/-- Claim C8: for `_resolve_input_references` over a component config —
(1) a value that is exactly `\x7b$inputs.X\x7d` with a user-supplied
input `X` resolves to the raw user value, type preserved; (2) with no
user value but a declared non-`None` default, it resolves to that raw
default; (3) with neither (no schema entry, or a `None` default), the
string is left unresolved; (4) a `\x7b$inputs.X\x7d` occurring inside a
larger string is replaced by the stringified user value, yielding a
string. -/
theorem claim_C8 :
    (∀ (u p : List (String × PyVal)) (X : String) (v : PyVal),
        X.data ≠ [] → '}' ∉ X.data → u.lookup X = Option.some v →
        resolveInputRefs u p (PyVal.str ("\x7b$inputs." ++ X ++ "\x7d")) = v) ∧
    (∀ (u p : List (String × PyVal)) (X : String) (spec : PlanInputSpec),
        X.data ≠ [] → '}' ∉ X.data → u.lookup X = Option.none →
        (getInputSchema p).lookup X = Option.some spec → spec.default.isNone = false →
        resolveInputRefs u p (PyVal.str ("\x7b$inputs." ++ X ++ "\x7d")) = spec.default) ∧
    (∀ (u p : List (String × PyVal)) (X : String),
        X.data ≠ [] → '}' ∉ X.data → u.lookup X = Option.none →
        (∀ spec, (getInputSchema p).lookup X = Option.some spec →
          spec.default.isNone = true) →
        resolveInputRefs u p (PyVal.str ("\x7b$inputs." ++ X ++ "\x7d")) =
          PyVal.str ("\x7b$inputs." ++ X ++ "\x7d")) ∧
    (∀ (u p : List (String × PyVal)) (pre X post : String) (v : PyVal),
        pre.data ≠ [] → '{' ∉ pre.data → X.data ≠ [] → '}' ∉ X.data →
        '{' ∉ post.data → u.lookup X = Option.some v →
        resolveInputRefs u p (PyVal.str (pre ++ "\x7b$inputs." ++ X ++ "\x7d" ++ post)) =
          PyVal.str (pre ++ pystr v ++ post)) := by
  refine ⟨?_, ?_, ?_, ?_⟩
  · intro u p X v h1 h2 hu
    rw [resolveInputRefs_full u p X h1 h2, hu]
  · intro u p X spec h1 h2 hu hs hd
    rw [resolveInputRefs_full u p X h1 h2, hu, hs]
    simp [hd]
  · intro u p X h1 h2 hu hdef
    rw [resolveInputRefs_full u p X h1 h2, hu]
    cases hs : (getInputSchema p).lookup X with
    | none => rfl
    | some spec =>
      simp [hdef spec hs]
  · intro u p pre X post v hpre1 hpre2 h1 h2 hpost hv
    exact resolveInputRefs_partial u p pre X post v hpre1 hpre2 h1 h2 hpost hv

/-- Witness for C8 at concrete inputs: with user input `n = 5`, the full
reference yields the integer `5` (not `"5"`); with no user value, a
declared default `7` is used raw; with a `None` default the reference
string survives; and inside `"a-…-b"` the reference is stringified. -/
theorem claim_C8_witness :
    (resolveInputRefs [("n", PyVal.int 5)] []
      (PyVal.str ("\x7b$inputs." ++ "n" ++ "\x7d")) = PyVal.int 5) ∧
    (resolveInputRefs [] [("n", PyVal.dict [("default", PyVal.int 7)])]
      (PyVal.str ("\x7b$inputs." ++ "n" ++ "\x7d")) = PyVal.int 7) ∧
    (resolveInputRefs [] []
      (PyVal.str ("\x7b$inputs." ++ "n" ++ "\x7d")) =
      PyVal.str ("\x7b$inputs." ++ "n" ++ "\x7d")) ∧
    (resolveInputRefs [("n", PyVal.int 5)] []
      (PyVal.str ("a-" ++ "\x7b$inputs." ++ "n" ++ "\x7d" ++ "-b")) =
      PyVal.str ("a-" ++ pystr (PyVal.int 5) ++ "-b")) :=
  ⟨claim_C8.1 [("n", PyVal.int 5)] [] "n" (PyVal.int 5) (by decide) (by decide) rfl,
   claim_C8.2.1 [] [("n", PyVal.dict [("default", PyVal.int 7)])] "n"
     (PlanInputSpec.mk (PyVal.str "string") (PyVal.bool true) (PyVal.int 7) (PyVal.str ""))
     (by decide) (by decide) rfl rfl rfl,
   claim_C8.2.2.1 [] [] "n" (by decide) (by decide) rfl
     (fun spec hs => by cases hs),
   claim_C8.2.2.2 [("n", PyVal.int 5)] [] "a-" "n" "-b" (PyVal.int 5)
     (by decide) (by decide) (by decide) (by decide) (by decide) rfl⟩

end MFE
